import Mathlib

/-!
Shallow embedding of the Subdivider control-mesh core:
the half-edge mesh builder (`src/subdiv/src/control/mesh.cpp`), the
topology cache (`src/subdiv/src/control/mesh_cache.cpp`) and the render
index extractor (`src/consumerApp/src/render_mesh.cpp`).

Modelling conventions:
* The four 32-bit index spaces (vertex, half-edge, edge, face) are
  modelled as `Nat` with the sentinel `INVALID = 0xFFFFFFFF`.  The
  `static_cast<...>(vec.size())` casts are value-preserving as long as the
  arrays stay below `2^32` elements; wherever a proof needs this, the
  bound appears as an explicit hypothesis instead of wrapping arithmetic.
* `std::vector` becomes `List`; `operator[]` reads that the C++ code
  performs without a prior bounds check are modelled with `List.getD`
  inside total query code, and with `Option` (`none` = out-of-bounds
  access, i.e. undefined behaviour) inside `addFace`, where a claim's
  verdict depends on the distinction.
* `std::unordered_map<uint64_t, HalfEdgeIndex>` becomes an association
  list; only `find` and `operator[]` (insert-or-overwrite) are used by
  the source, so iteration order never matters.
* The diagnostics sink is modelled by returning the recorded error code
  (`Option String`) alongside the result; profiling macros are no-ops.
* Loops whose C++ termination argument is a visited bitset or an explicit
  safety counter are modelled with a fuel parameter chosen strictly larger
  than the worst-case iteration count of the C++ loop, so the model and
  the source agree on every input.
-/

/-- `INVALID_INDEX = 0xFFFFFFFF` from `mesh_types.hpp`. -/
def INVALID : Nat := 4294967295

/-- `Vertex` record (`mesh_types.hpp`): only the topological field
`outgoing` matters to the claims; `position`, `sharpness` and `corner`
are float/flag payload never read by the verified code paths. -/
structure Vertex where
  outgoing : Nat := INVALID
  deriving DecidableEq, Repr

/-- `HalfEdge` record (`mesh_types.hpp`). -/
structure HalfEdge where
  «to» : Nat := INVALID
  next : Nat := INVALID
  prev : Nat := INVALID
  twin : Nat := INVALID
  face : Nat := INVALID
  edge : Nat := INVALID
  deriving DecidableEq, Repr

/-- `Edge` record (`mesh_types.hpp`): tag `EDGE_SMOOTH = 0`; the float
`sharpness` is payload never read by the verified code paths. -/
structure Edge where
  tag : Nat := 0
  deriving DecidableEq, Repr

/-- `Face` record (`mesh_types.hpp`). -/
structure Face where
  edge    : Nat := INVALID
  valence : Nat := 0
  deriving DecidableEq, Repr

/-- `makeDirectedEdgeKey(v0, v1) = (uint64(v0) << 32) | uint64(v1)`
(`mesh_types.hpp`); for `v0, v1 < 2^32` this is `v0 * 2^32 + v1`. -/
def makeDirectedEdgeKey (v0 v1 : Nat) : Nat :=
  v0 * 4294967296 + v1

/-- `std::unordered_map::find`. -/
def lookupMap : List (Nat × Nat) → Nat → Option Nat
  | [], _ => none
  | p :: rest, k => if p.1 = k then some p.2 else lookupMap rest k

/-- `std::unordered_map::operator[] = v`: overwrite or insert. -/
def insertMap : List (Nat × Nat) → Nat → Nat → List (Nat × Nat)
  | [], k, v => [(k, v)]
  | p :: rest, k, v =>
      if p.1 = k then (k, v) :: rest else p :: insertMap rest k v

/-- The mesh state: the arrays of `class Mesh` (`mesh.cpp` variant with
`vertices_`, `halfEdges_`, `edges_`, `faces_`, the parallel attribute
arrays and the directed-edge map).  Attribute records carry only float
payload, so the attribute arrays are modelled as lists of units (their
lengths are what the claims talk about). -/
structure Mesh where
  vertices         : List Vertex := []
  halfEdges        : List HalfEdge := []
  edges            : List Edge := []
  faces            : List Face := []
  vertexAttributes : List Unit := []
  faceAttributes   : List Unit := []
  halfEdgeMap      : List (Nat × Nat) := []
  deriving DecidableEq, Repr

def emptyMesh : Mesh := {}

/-- Half-edge at index `h` (total read; used where the C++ access is
in bounds on every input a theorem quantifies over). -/
def heAt (m : Mesh) (h : Nat) : HalfEdge :=
  m.halfEdges.getD h {}

/-- Face at index `f`. -/
def faceAt (m : Mesh) (f : Nat) : Face :=
  m.faces.getD f {}

/-- `Mesh::addVertex`: appends one vertex and one attribute record,
returns the new index. -/
def addVertex (m : Mesh) : Mesh × Nat :=
  ({ m with
      vertices := m.vertices ++ [({} : Vertex)],
      vertexAttributes := m.vertexAttributes ++ [()] },
   m.vertices.length)

/-- First component of `addVertex` (the mutated mesh). -/
def addVertexM (m : Mesh) : Mesh := (addVertex m).1

/-- Duplicate-vertex scan of `Mesh::addFace` (the `i < j` double loop). -/
def hasDuplicate (verts : List Nat) : Bool :=
  match verts with
  | [] => false
  | v :: rest => rest.contains v || hasDuplicate rest

/-- Result of the per-vertex loop of `Mesh::addFace`:
either all iterations succeeded, or the `NON_MANIFOLD_EDGE` rollback
fired (the state after `halfEdges_.resize(faceHalfEdges[0])`). -/
inductive AddFaceLoopRes where
  | ok (m : Mesh) (faceHalfEdges : List Nat)
  | nonManifold (m : Mesh)
  deriving DecidableEq

/-- `halfEdges_.push_back(he)` with `he.to = v1, he.face = faceIdx`
(lines 67-73). -/
def addFacePush (m : Mesh) (v1 faceIdx : Nat) : Mesh :=
  { m with halfEdges := m.halfEdges ++ [({ «to» := v1, face := faceIdx } : HalfEdge)] }

/-- `if (vertices_[v0].outgoing == INVALID_INDEX) vertices_[v0].outgoing
= heIdx` (lines 77-78), after the bounds check has been discharged. -/
def addFaceOutgoing (m : Mesh) (v0 heIdx : Nat) (vert : Vertex) : Mesh :=
  if vert.outgoing = INVALID then
    { m with vertices := m.vertices.set v0 { vert with outgoing := heIdx } }
  else m

/-- Twin-link block (lines 100-105): link the twins and share the
edge. -/
def addFaceTwinLink (m : Mesh) (heIdx twinIdx : Nat) (twinHe : HalfEdge) : Mesh :=
  let he := m.halfEdges.getD heIdx {}
  let hes := m.halfEdges.set heIdx { he with twin := twinIdx, edge := twinHe.edge }
  { m with halfEdges := hes.set twinIdx { twinHe with twin := heIdx } }

/-- Rollback of the non-manifold error path (lines 89-98):
`halfEdges_.resize(faceHalfEdges[0])`, leaving every other array and the
map as they are at that point. -/
def addFaceRollback (m : Mesh) (fhe : List Nat) : Mesh :=
  { m with halfEdges := m.halfEdges.take (fhe.headD 0) }

/-- New-edge block (lines 107-118): allocate an undirected edge, assign
it to the new half-edge and record the directed key in the map. -/
def addFaceNewEdge (m : Mesh) (heIdx v0 v1 : Nat) : Mesh :=
  let edgeIdx := m.edges.length
  let m1 := { m with edges := m.edges ++ [({} : Edge)] }
  let he := m1.halfEdges.getD heIdx {}
  let m2 := { m1 with halfEdges := m1.halfEdges.set heIdx { he with edge := edgeIdx } }
  { m2 with halfEdgeMap := insertMap m2.halfEdgeMap (makeDirectedEdgeKey v0 v1) heIdx }

/-- The body of `for (i = 0; i < verts.size(); ++i)` in `Mesh::addFace`
(`mesh.cpp` lines 62-120), iterated over the remaining indices `is`.
`none` models an out-of-bounds `vertices_[v0]` or `halfEdges_[twinIdx]`
access (undefined behaviour in the C++). -/
def addFaceLoop (verts : List Nat) (faceIdx : Nat) :
    List Nat → Mesh → List Nat → Option AddFaceLoopRes
  | [], m, fhe => some (.ok m fhe)
  | i :: rest, m, fhe =>
      let v0 := verts.getD i 0
      let v1 := verts.getD ((i + 1) % verts.length) 0
      let heIdx := m.halfEdges.length
      let m := addFacePush m v1 faceIdx
      let fhe := fhe ++ [heIdx]
      match m.vertices[v0]? with
      | none => none
      | some vert =>
        let m := addFaceOutgoing m v0 heIdx vert
        -- auto it = halfEdgeMap_.find(makeDirectedEdgeKey(v1, v0));
        match lookupMap m.halfEdgeMap (makeDirectedEdgeKey v1 v0) with
        | some twinIdx =>
          match m.halfEdges[twinIdx]? with
          | none => none
          | some twinHe =>
            if twinHe.twin ≠ INVALID then
              some (.nonManifold (addFaceRollback m fhe))
            else
              addFaceLoop verts faceIdx rest (addFaceTwinLink m heIdx twinIdx twinHe) fhe
        | none =>
          addFaceLoop verts faceIdx rest (addFaceNewEdge m heIdx v0 v1) fhe

/-- `next/prev` linking loop of `Mesh::addFace` (lines 123-130). -/
def linkLoop (fhe : List Nat) : List Nat → Mesh → Mesh
  | [], m => m
  | i :: rest, m =>
      let curr := fhe.getD i 0
      let nxt := fhe.getD ((i + 1) % fhe.length) 0
      let prv := fhe.getD ((i + fhe.length - 1) % fhe.length) 0
      let he := m.halfEdges.getD curr {}
      let m := { m with halfEdges := m.halfEdges.set curr { he with next := nxt, prev := prv } }
      linkLoop fhe rest m

/-- `Mesh::addFace` (`mesh.cpp` lines 20-140).  Returns
`some (mesh', returnedIndex, recordedErrorCode)`; `none` models an
out-of-bounds array access (undefined behaviour). -/
def addFace (m : Mesh) (verts : List Nat) : Option (Mesh × Nat × Option String) :=
  if verts.length < 3 then
    some (m, INVALID, some "FACE_TOO_FEW_VERTICES")
  else if hasDuplicate verts then
    some (m, INVALID, some "DUPLICATE_VERTEX_IN_FACE")
  else
    let faceIdx := m.faces.length
    match addFaceLoop verts faceIdx (List.range verts.length) m [] with
    | none => none
    | some (.nonManifold m') => some (m', INVALID, some "NON_MANIFOLD_EDGE")
    | some (.ok m' fhe) =>
        let m' := linkLoop fhe (List.range fhe.length) m'
        let m' := { m' with
          faces := m'.faces ++ [{ edge := fhe.headD 0, valence := verts.length }],
          faceAttributes := m'.faceAttributes ++ [()] }
        some (m', faceIdx, none)

/-- `Mesh::getFromVertex` (lines 142-152): `to[prev[h]]`, `INVALID` when
`prev` is unset.  The C++ asserts `h < size`; reads are modelled totally
with `INVALID`/default fallbacks (every verified call site is in
bounds). -/
def getFromVertex (m : Mesh) (h : Nat) : Nat :=
  match m.halfEdges[h]? with
  | none => INVALID
  | some he =>
      if he.prev = INVALID then INVALID
      else (m.halfEdges.getD he.prev {}).to

/-- `Mesh::findHalfEdge` (lines 237-246): a single directed-map lookup. -/
def findHalfEdge (m : Mesh) (v0 v1 : Nat) : Nat :=
  match lookupMap m.halfEdgeMap (makeDirectedEdgeKey v0 v1) with
  | none => INVALID
  | some h => h

/-- Orphaned-edge scan of `Mesh::validate` (lines 369-384): an edge
referenced by no half-edge makes `validate` report `ORPHANED_EDGE` and
return false. -/
def hasOrphanedEdge (m : Mesh) : Bool :=
  (List.range m.edges.length).any fun e =>
    m.halfEdges.all fun he => he.edge ≠ e

/-- Inner backward loop of `Mesh::getVertexValence` (lines 178-188):
walks `prev`/`twin` toward the clockwise boundary counting edges.  The
C++ loop has no cycle guard, so it can diverge on a corrupted mesh;
fuel exhaustion (`none`) models that. -/
def valenceBackward (m : Mesh) :
    Nat → Nat → Int → Option Int
  | 0, _, _ => none
  | fuel + 1, current, valence =>
      let prv := (heAt m current).prev
      if prv = INVALID then some valence
      else
        let prevTwin := (heAt m prv).twin
        if prevTwin = INVALID then some valence
        else valenceBackward m fuel prevTwin (valence + 1)

/-- Outer do-while of `Mesh::getVertexValence` (lines 166-199). -/
def valenceLoop (m : Mesh) (start outgoing : Nat) :
    Nat → Nat → Int → Option Int
  | 0, _, _ => none
  | fuel + 1, current, valence =>
      let valence := valence + 1
      let twin := (heAt m current).twin
      if twin = INVALID then
        -- Boundary vertex: restart from `outgoing` and walk backwards
        valenceBackward m (m.halfEdges.length + 2) outgoing valence
      else
        let current' := (heAt m twin).next
        if valence > 1000 then some (-1)
        else if current' ≠ start ∧ current' ≠ INVALID then
          valenceLoop m start outgoing fuel current' valence
        else some valence

/-- `Mesh::getVertexValence` (lines 154-202).  `none` models an
out-of-bounds vertex access (the C++ asserts) or a diverging loop. -/
def getVertexValence (m : Mesh) (v : Nat) : Option Int :=
  match m.vertices[v]? with
  | none => none
  | some vert =>
      if vert.outgoing = INVALID then some 0
      else valenceLoop m vert.outgoing vert.outgoing 1002 vert.outgoing 0

/-- Do-while of `Mesh::isBoundaryVertex` (lines 216-232); the twin test
appears twice in the source with identical meaning.  No cycle guard in
the C++, so fuel exhaustion (`none`) models divergence. -/
def boundaryLoop (m : Mesh) (start : Nat) : Nat → Nat → Option Bool
  | 0, _ => none
  | fuel + 1, current =>
      let twin := (heAt m current).twin
      if twin = INVALID then some true
      else
        let current' := (heAt m twin).next
        if current' = INVALID then some true
        else if current' ≠ start then boundaryLoop m start fuel current'
        else some false

/-- `Mesh::isBoundaryVertex` (lines 204-235). -/
def isBoundaryVertexMesh (m : Mesh) (v : Nat) : Option Bool :=
  match m.vertices[v]? with
  | none => none
  | some vert =>
      if vert.outgoing = INVALID then some true
      else boundaryLoop m vert.outgoing (m.halfEdges.length + 2) vert.outgoing

/-- Modelled from the spec: `is_valid_index(i, len)` (§4.A) is declared
by the specification but its definition is not under `src/` (only the
cache is a caller); the natural reading is an in-range, non-sentinel
index. -/
def isValidIndex (i n : Nat) : Bool :=
  i ≠ INVALID && i < n

/-- The `TopologyCache` arrays (`mesh_cache.hpp`): `uint16` valences and
`uint8` flags are modelled as `Nat` (the verified meshes stay far below
the 2^16 wrap). -/
structure TopologyCache where
  valences            : List Nat := []
  boundaryFlags       : List Nat := []
  oneRings            : List Nat := []
  oneRingOffsets      : List Nat := []
  vertexFaces         : List Nat := []
  vertexFaceOffsets   : List Nat := []
  edgeVertices        : List (Nat × Nat) := []
  edgeBoundaryFlags   : List Nat := []
  edgeFaces           : List Nat := []
  edgeFaceOffsets     : List Nat := []
  faceVertices        : List Nat := []
  faceVertexOffsets   : List Nat := []
  faceEdges           : List Nat := []
  faceEdgeOffsets     : List Nat := []
  numBoundaryVertices : Nat := 0
  numBoundaryEdges    : Nat := 0
  valid               : Bool := false
  deriving DecidableEq, Repr

/-- `TopologyCache::clear` (mesh_cache.cpp lines 324-345): every array
is cleared, the totals zeroed and the valid flag dropped, so the result
is the same fixed record whatever the previous cache held. -/
def TopologyCache.clearC (_c : TopologyCache) : TopologyCache := {}

/-- State threaded through the phase-1 edge scan. -/
structure EdgeScanState where
  ev     : List (Nat × Nat)
  flags  : List Nat
  counts : List Nat
  deriving DecidableEq, Repr

/-- Canonical edge-vertex pair: `if (v0 > v1) std::swap(v0, v1)`
(mesh_cache.cpp line 46). -/
def canonPair (v0 v1 : Nat) : Nat × Nat :=
  if v0 > v1 then (v1, v0) else (v0, v1)

/-- Body of the phase-1 single pass over half-edges
(mesh_cache.cpp lines 33-57). -/
def edgeScanStep (m : Mesh) (numEdges : Nat) (s : EdgeScanState) (h : Nat) :
    EdgeScanState :=
  let he := heAt m h
  if he.edge = INVALID ∨ he.edge ≥ numEdges then s
  else
    let s :=
      if (s.ev.getD he.edge (INVALID, INVALID)).1 = INVALID then
        { s with ev := s.ev.set he.edge (canonPair (getFromVertex m h) he.to) }
      else s
    let s :=
      if he.face ≠ INVALID then
        { s with counts := s.counts.set he.edge ((s.counts.getD he.edge 0) + 1) }
      else s
    if he.twin ≠ INVALID then { s with flags := s.flags.set he.edge 0 } else s

/-- Initial phase-1 state: the resizes of lines 24-30 (`edgeVertices_`
to `{INVALID, INVALID}`, `edgeBoundaryFlags_` to 1, `edgeFaceCounts`
to 0). -/
def edgeScanInit (numEdges : Nat) : EdgeScanState :=
  { ev := List.replicate numEdges (INVALID, INVALID),
    flags := List.replicate numEdges 1,
    counts := List.replicate numEdges 0 }

/-- Phase 1: edge vertices, edge boundary flags and per-edge face counts
(the single pass of lines 33-57). -/
def edgeScan (m : Mesh) (numEdges : Nat) : EdgeScanState :=
  (List.range m.halfEdges.length).foldl (edgeScanStep m numEdges)
    (edgeScanInit numEdges)

/-- Phase 2 (lines 72-79): valence = number of incident edges, counted
through the canonical endpoints of each edge. -/
def valencesOf (numVerts numEdges : Nat) (ev : List (Nat × Nat)) : List Nat :=
  (List.range numEdges).foldl
    (fun acc e =>
      let p := ev.getD e (INVALID, INVALID)
      let acc := if isValidIndex p.1 numVerts then acc.set p.1 ((acc.getD p.1 0) + 1) else acc
      if isValidIndex p.2 numVerts then acc.set p.2 ((acc.getD p.2 0) + 1) else acc)
    (List.replicate numVerts 0)

/-- Phase 3 (lines 83-94): a vertex is boundary iff some incident edge
is boundary. -/
def boundaryFlagsOf (numVerts numEdges : Nat) (ev : List (Nat × Nat))
    (eflags : List Nat) : List Nat :=
  (List.range numEdges).foldl
    (fun acc e =>
      if eflags.getD e 0 ≠ 0 then
        let p := ev.getD e (INVALID, INVALID)
        let acc := if isValidIndex p.1 numVerts then acc.set p.1 1 else acc
        if isValidIndex p.2 numVerts then acc.set p.2 1 else acc
      else acc)
    (List.replicate numVerts 0)

/-- Face-loop walk of phase 4 (lines 113-129), guarded by the per-face
visited bitset; fuel exceeds the bitset bound, so it never runs out on
the loops the C++ executes. -/
def vertexFaceCountWalk (m : Mesh) (numVerts numHalfEdges start : Nat) :
    Nat → Nat → List Bool → List Nat → List Nat
  | 0, _, _, counts => counts
  | fuel + 1, current, visited, counts =>
      if visited.getD current false then counts
      else
        let visited := visited.set current true
        let v := getFromVertex m current
        let counts :=
          if isValidIndex v numVerts then counts.set v ((counts.getD v 0) + 1) else counts
        let current' := (heAt m current).next
        if current' ≠ start ∧ isValidIndex current' numHalfEdges then
          vertexFaceCountWalk m numVerts numHalfEdges start fuel current' visited counts
        else counts

/-- Phase 4 (lines 100-130): count vertex-face incidences. -/
def vertexFaceCountsOf (m : Mesh) (numVerts numHalfEdges numFaces : Nat) : List Nat :=
  (List.range numFaces).foldl
    (fun counts f =>
      let face := faceAt m f
      if face.edge = INVALID then counts
      else
        vertexFaceCountWalk m numVerts numHalfEdges face.edge (numHalfEdges + 2)
          face.edge (List.replicate numHalfEdges false) counts)
    (List.replicate numVerts 0)

/-- Phase 5 (lines 134-161): each offset array is the running prefix sum
of its count array, written into a zero-filled array of length N+1 with
`offsets[0] = 0` and `offsets[i+1] = offsets[i] + counts[i]`. -/
def csrOffsets (counts : List Nat) : List Nat :=
  counts.scanl (· + ·) 0

/-- Forward (counter-clockwise `twin.next`) walk of phase 7
(lines 193-211); returns the rings array, the write cursor, the visited
set, the boundary flag and the final `current`. -/
def oneRingForward (m : Mesh) (writeEnd start : Nat) :
    Nat → Nat → List Nat → Nat → List Bool →
    List Nat × Nat × List Bool × Bool × Nat
  | 0, current, rings, pos, visited => (rings, pos, visited, false, current)
  | fuel + 1, current, rings, pos, visited =>
      if visited.getD current false then (rings, pos, visited, false, current)
      else
        let visited := visited.set current true
        let neighbor := (heAt m current).to
        let rp := if pos < writeEnd then (rings.set pos neighbor, pos + 1) else (rings, pos)
        let twin := (heAt m current).twin
        if twin = INVALID then (rp.1, rp.2, visited, true, current)
        else
          let current' := (heAt m twin).next
          if current' ≠ start then
            oneRingForward m writeEnd start fuel current' rp.1 rp.2 visited
          else (rp.1, rp.2, visited, false, current')

/-- Backward (clockwise `prev.twin`) walk of phase 7 (lines 214-238),
entered only when the forward walk hit a boundary. -/
def oneRingBackward (m : Mesh) (numHalfEdges writeEnd : Nat) :
    Nat → Nat → List Nat → Nat → List Bool → List Nat × Nat
  | 0, _, rings, pos, _ => (rings, pos)
  | fuel + 1, current, rings, pos, visited =>
      let prv := (heAt m current).prev
      if ¬ isValidIndex prv numHalfEdges then (rings, pos)
      else
        let prevTwin := (heAt m prv).twin
        if prevTwin = INVALID then
          let lastNeighbour := getFromVertex m prv
          if pos < writeEnd then (rings.set pos lastNeighbour, pos + 1) else (rings, pos)
        else if visited.getD prevTwin false then (rings, pos)
        else
          let visited := visited.set prevTwin true
          let neighbor := (heAt m prevTwin).to
          let rp := if pos < writeEnd then (rings.set pos neighbor, pos + 1) else (rings, pos)
          oneRingBackward m numHalfEdges writeEnd fuel prevTwin rp.1 rp.2 visited

/-- Phase 7 (lines 171-246): fill the one-ring CSR values.  The write
cursor array `oneRingWritePos` starts as a copy of the offsets and each
vertex only ever advances its own entry, so it is threaded per
vertex. -/
def fillOneRings (m : Mesh) (numVerts numHalfEdges : Nat)
    (offsets : List Nat) (init : List Nat) : List Nat :=
  (List.range numVerts).foldl
    (fun rings v =>
      let vert := m.vertices.getD v {}
      if vert.outgoing = INVALID then rings
      else
        let writeEnd := offsets.getD (v + 1) 0
        let pos := offsets.getD v 0
        let visited := List.replicate numHalfEdges false
        let res := oneRingForward m writeEnd vert.outgoing (numHalfEdges + 2)
          vert.outgoing rings pos visited
        if res.2.2.2.1 then
          (oneRingBackward m numHalfEdges writeEnd (numHalfEdges + 2)
            res.2.2.2.2 res.1 res.2.1 res.2.2.1).1
        else res.1)
    init

/-- State threaded through phase 8. -/
structure FaceFillState where
  faceVertices : List Nat
  faceEdges    : List Nat
  vertexFaces  : List Nat
  edgeFaces    : List Nat
  vfwp         : List Nat
  efwp         : List Nat
  deriving DecidableEq, Repr

/-- Vertex block of the phase-8 walk body (lines 277-286): write the
face vertex (cursor-bounded) and append `f` to the vertex-face values;
returns the state and the advanced `faceVertPos`. -/
def fillVertexPart (nv f fvPos fvEnd : Nat) (vfOff : List Nat) (v : Nat)
    (s : FaceFillState) : FaceFillState × Nat :=
  if isValidIndex v nv then
    let s1 :=
      if fvPos < fvEnd then
        { s with faceVertices := s.faceVertices.set fvPos v }
      else s
    let s2 :=
      if s.vfwp.getD v 0 < vfOff.getD (v + 1) 0 then
        { s1 with vertexFaces := s1.vertexFaces.set (s.vfwp.getD v 0) f,
                  vfwp := s1.vfwp.set v ((s.vfwp.getD v 0) + 1) }
      else s1
    (s2, if fvPos < fvEnd then fvPos + 1 else fvPos)
  else (s, fvPos)

/-- Edge block of the phase-8 walk body (lines 289-298). -/
def fillEdgePart (ne f fePos feEnd : Nat) (efOff : List Nat) (e : Nat)
    (s : FaceFillState) : FaceFillState × Nat :=
  if isValidIndex e ne then
    let s1 :=
      if fePos < feEnd then
        { s with faceEdges := s.faceEdges.set fePos e }
      else s
    let s2 :=
      if s.efwp.getD e 0 < efOff.getD (e + 1) 0 then
        { s1 with edgeFaces := s1.edgeFaces.set (s.efwp.getD e 0) f,
                  efwp := s1.efwp.set e ((s.efwp.getD e 0) + 1) }
      else s1
    (s2, if fePos < feEnd then fePos + 1 else fePos)
  else (s, fePos)

/-- Face-loop walk of phase 8 (lines 269-302). -/
def faceFillWalk (m : Mesh) (numVerts numEdges numHalfEdges start f : Nat)
    (vfOff efOff : List Nat) (fvEnd feEnd : Nat) :
    Nat → Nat → Nat → Nat → List Bool → FaceFillState → FaceFillState
  | 0, _, _, _, _, s => s
  | fuel + 1, current, fvPos, fePos, visited, s =>
      if visited.getD current false then s
      else
        let visited := visited.set current true
        let he := heAt m current
        let sv := fillVertexPart numVerts f fvPos fvEnd vfOff (getFromVertex m current) s
        let se := fillEdgePart numEdges f fePos feEnd efOff he.edge sv.1
        let current' := he.next
        if current' ≠ start ∧ isValidIndex current' numHalfEdges then
          faceFillWalk m numVerts numEdges numHalfEdges start f vfOff efOff
            fvEnd feEnd fuel current' sv.2 se.2 visited se.1
        else se.1

/-- Phase 8 (lines 250-303): fill face vertices/edges and the
vertex-face / edge-face incidence values. -/
def faceFill (m : Mesh) (numVerts numEdges numHalfEdges numFaces : Nat)
    (vfOff efOff fvOff feOff : List Nat) (s : FaceFillState) : FaceFillState :=
  (List.range numFaces).foldl
    (fun s f =>
      let face := faceAt m f
      if ¬ isValidIndex face.edge numHalfEdges then s
      else
        faceFillWalk m numVerts numEdges numHalfEdges face.edge f vfOff efOff
          (fvOff.getD (f + 1) 0) (feOff.getD (f + 1) 0) (numHalfEdges + 2)
          face.edge (fvOff.getD f 0) (feOff.getD f 0)
          (List.replicate numHalfEdges false) s)
    s

/-- `TopologyCache::build` (mesh_cache.cpp lines 10-322): clears the old
cache, then runs the nine phases; diagnostics-only phases (the
non-manifold warning of phase 1, the one-ring count check, phase 9's CSR
check) record warnings but change no array, so they are omitted. -/
def TopologyCache.build (c : TopologyCache) (m : Mesh) : TopologyCache :=
  let base := c.clearC
  let numVerts := m.vertices.length
  let numEdges := m.edges.length
  let numFaces := m.faces.length
  let numHalfEdges := m.halfEdges.length
  if numVerts = 0 then base
  else
    let scan := edgeScan m numEdges
    let numBoundaryEdges := scan.flags.count 1
    let valences := valencesOf numVerts numEdges scan.ev
    let boundaryFlags := boundaryFlagsOf numVerts numEdges scan.ev scan.flags
    let numBoundaryVertices := boundaryFlags.count 1
    let vfCounts := vertexFaceCountsOf m numVerts numHalfEdges numFaces
    let oneRingOffsets := csrOffsets valences
    let vertexFaceOffsets := csrOffsets vfCounts
    let edgeFaceOffsets := csrOffsets scan.counts
    let faceVertexOffsets := csrOffsets (m.faces.map (·.valence))
    let faceEdgeOffsets := csrOffsets (m.faces.map (·.valence))
    let oneRings := fillOneRings m numVerts numHalfEdges oneRingOffsets
      (List.replicate (oneRingOffsets.getLastD 0) 0)
    let fillRes := faceFill m numVerts numEdges numHalfEdges numFaces
      vertexFaceOffsets edgeFaceOffsets faceVertexOffsets faceEdgeOffsets
      { faceVertices := List.replicate (faceVertexOffsets.getLastD 0) 0,
        faceEdges := List.replicate (faceEdgeOffsets.getLastD 0) 0,
        vertexFaces := List.replicate (vertexFaceOffsets.getLastD 0) 0,
        edgeFaces := List.replicate (edgeFaceOffsets.getLastD 0) 0,
        vfwp := vertexFaceOffsets,
        efwp := edgeFaceOffsets }
    { base with
      valences := valences,
      boundaryFlags := boundaryFlags,
      oneRings := oneRings,
      oneRingOffsets := oneRingOffsets,
      vertexFaces := fillRes.vertexFaces,
      vertexFaceOffsets := vertexFaceOffsets,
      edgeVertices := scan.ev,
      edgeBoundaryFlags := scan.flags,
      edgeFaces := fillRes.edgeFaces,
      edgeFaceOffsets := edgeFaceOffsets,
      faceVertices := fillRes.faceVertices,
      faceVertexOffsets := faceVertexOffsets,
      faceEdges := fillRes.faceEdges,
      faceEdgeOffsets := faceEdgeOffsets,
      numBoundaryVertices := numBoundaryVertices,
      numBoundaryEdges := numBoundaryEdges,
      valid := true }

/-- `TopologyCache::getValence` (mesh_cache.hpp line 68). -/
def TopologyCache.getValence (c : TopologyCache) (v : Nat) : Nat :=
  if v < c.valences.length then c.valences.getD v 0 else 0

/-- `TopologyCache::isBoundaryVertex` (mesh_cache.hpp line 73); the
`uint8` flag converts to `bool` as "nonzero". -/
def TopologyCache.isBoundaryVertexC (c : TopologyCache) (v : Nat) : Bool :=
  if v < c.boundaryFlags.length then (c.boundaryFlags.getD v 0) ≠ 0 else false

/-- `TopologyCache::isBoundaryEdge` (mesh_cache.hpp line 98). -/
def TopologyCache.isBoundaryEdgeC (c : TopologyCache) (e : Nat) : Bool :=
  if e < c.edgeBoundaryFlags.length then (c.edgeBoundaryFlags.getD e 0) ≠ 0 else false

/-- `TopologyCache::getEdgeVertices` (mesh_cache.hpp lines 105-110). -/
def TopologyCache.getEdgeVerticesC (c : TopologyCache) (e : Nat) : Nat × Nat :=
  if e < c.edgeVertices.length then c.edgeVertices.getD e (INVALID, INVALID)
  else (INVALID, INVALID)

/-- CSR span helper shared by the five span accessors
(mesh_cache.cpp lines 347-400): `{values.data() + start, end - start}`. -/
def csrSpan (values offsets : List Nat) (i : Nat) : List Nat :=
  if i ≥ offsets.length - 1 then []
  else
    let start := offsets.getD i 0
    let stop := offsets.getD (i + 1) 0
    (values.drop start).take (stop - start)

/-- `TopologyCache::getVertexOneRing` (lines 347-356). -/
def TopologyCache.getVertexOneRing (c : TopologyCache) (v : Nat) : List Nat :=
  csrSpan c.oneRings c.oneRingOffsets v

/-- `TopologyCache::getVertexFaces` (lines 358-367). -/
def TopologyCache.getVertexFaces (c : TopologyCache) (v : Nat) : List Nat :=
  csrSpan c.vertexFaces c.vertexFaceOffsets v

/-- `TopologyCache::getEdgeFaces` (lines 369-378). -/
def TopologyCache.getEdgeFaces (c : TopologyCache) (e : Nat) : List Nat :=
  csrSpan c.edgeFaces c.edgeFaceOffsets e

/-- `TopologyCache::getFaceVertices` (lines 380-389). -/
def TopologyCache.getFaceVertices (c : TopologyCache) (f : Nat) : List Nat :=
  csrSpan c.faceVertices c.faceVertexOffsets f

/-- `TopologyCache::getFaceEdges` (lines 391-400). -/
def TopologyCache.getFaceEdges (c : TopologyCache) (f : Nat) : List Nat :=
  csrSpan c.faceEdges c.faceEdgeOffsets f

/-- Vertex-collection walk of `RenderMesh::buildTriangleIndices`
(render_mesh.cpp lines 45-56): collects `getFromVertex` at each step,
bounded by the `count > valence + 10` safety check.  Fuel exceeds the
iteration bound enforced by that check, so the model agrees with the
C++ do-while on every input. -/
def triWalk (m : Mesh) (start valence : Nat) :
    Nat → Nat → Nat → List Nat → List Nat
  | 0, _, _, acc => acc
  | fuel + 1, current, count, acc =>
      let v := getFromVertex m current
      let acc := if v ≠ INVALID then acc ++ [v] else acc
      let current' := (heAt m current).next
      let count := count + 1
      if count > valence + 10 then acc
      else if current' ≠ start ∧ current' ≠ INVALID then
        triWalk m start valence fuel current' count acc
      else acc

/-- Fan triangulation (lines 58-65): triangles `(v0, vi, vi1)` with
`vi1` the successor of `vi`, for `i = 1 .. n-2`, flattened. -/
def fanTriangles (vs : List Nat) : List Nat :=
  if vs.length ≥ 3 then
    (List.range' 1 (vs.length - 2)).flatMap
      (fun i => [vs.getD 0 0, vs.getD i 0, vs.getD (i + 1) 0])
  else []

/-- Per-face triangle emission of `RenderMesh::buildTriangleIndices`
(lines 30-66). -/
def faceTriangleIndices (m : Mesh) (f : Nat) : List Nat :=
  let face := faceAt m f
  if face.valence < 3 then []
  else if face.edge = INVALID ∨ face.edge ≥ m.halfEdges.length then []
  else
    fanTriangles (triWalk m face.edge face.valence (face.valence + 12) face.edge 0 [])

/-- `RenderMesh::buildTriangleIndices` (lines 27-67): concatenation over
all faces. -/
def buildTriangleIndices (m : Mesh) : List Nat :=
  (List.range m.faces.length).flatMap (faceTriangleIndices m)

/-! ### Concrete meshes used by the evaluation theorems -/

/-- A mesh holding `n` fresh vertices (`n` calls to `addVertex`). -/
def meshN (n : Nat) : Mesh :=
  (List.range n).foldl (fun m _ => addVertexM m) emptyMesh

/-- Helper extracting the mesh from an `addFace` result. -/
def faceResMesh (r : Option (Mesh × Nat × Option String)) : Mesh :=
  (r.map Prod.fst).getD emptyMesh

/-- Three vertices and the single triangle `(0,1,2)`. -/
def triMesh : Mesh := faceResMesh (addFace (meshN 3) [0, 1, 2])

/-- Four vertices and the single triangle `(0,1,2)`. -/
def triMesh4 : Mesh := faceResMesh (addFace (meshN 4) [0, 1, 2])

/-- Five vertices, triangle `(0,1,2)` then triangle `(1,0,3)`; both calls
succeed and the directed pair `(0,1)`/`(1,0)` becomes a twin-linked
interior edge. -/
def twinMesh : Mesh :=
  faceResMesh (addFace (faceResMesh (addFace (meshN 5) [0, 1, 2])) [1, 0, 3])

/-- `twinMesh` after the failing call `addFace (4,1,0)`: the call errors
with `NON_MANIFOLD_EDGE` at its second directed pair, after its first
iteration already appended an edge, a map entry and an outgoing
pointer. -/
def twinMeshAfterFail : Mesh := faceResMesh (addFace twinMesh [4, 1, 0])

/-- `triMesh` plus one extra vertex that no face uses (vertex 3 is
isolated). -/
def isoMesh : Mesh := addVertexM triMesh

/-! ### C7: cache idempotence -/

/-- C7: cache building is idempotent — building the cache twice in a row
produces exactly the same cache record (all arrays byte-identical) as
building it once, because `TopologyCache::build` first `clear()`s every
field and then depends only on the mesh. -/
theorem C7_build_cache_idempotent (c : TopologyCache) (m : Mesh) :
    TopologyCache.build (TopologyCache.build c m) m = TopologyCache.build c m :=
  rfl

/-! ### C1-C4: evaluations of `addFace`/`findHalfEdge` at the failing inputs -/

/-- C1: the claim that a failing `addFace` leaves every array and the
map untouched is violated by the code.  On `twinMesh` the call
`addFace (4,1,0)` returns `INVALID` with `NON_MANIFOLD_EDGE`, yet the
edge array has grown by one, the directed-edge map has gained the entry
`(4,1) ↦ 6` (a dangling half-edge index), vertex 4's outgoing pointer
now dangles, and the mesh now contains an orphaned edge — the very state
`Mesh::validate` rejects with `ORPHANED_EDGE`.  The non-manifold check
runs inside the append loop, not before the appends. -/
theorem C1_failed_addFace_mutates_state :
    addFace twinMesh [4, 1, 0] =
      some (twinMeshAfterFail, INVALID, some "NON_MANIFOLD_EDGE") ∧
    twinMeshAfterFail.edges.length = twinMesh.edges.length + 1 ∧
    lookupMap twinMeshAfterFail.halfEdgeMap (makeDirectedEdgeKey 4 1) = some 6 ∧
    (twinMeshAfterFail.vertices.getD 4 {}).outgoing = 6 ∧
    (twinMesh.vertices.getD 4 {}).outgoing = INVALID ∧
    hasOrphanedEdge twinMesh = false ∧
    hasOrphanedEdge twinMeshAfterFail = true := by
  decide

/-- C2: the claim that `add_face(0,1,2)` then `add_face(0,1,3)` returns
`INVALID` (duplicate directed edge `(0→1)`) with `num_half_edges`
staying 3 is violated: the builder only looks up the reversed key
`(1,0)`, so the second call succeeds, returns face index 1, records no
error, silently overwrites the map entry for `(0,1)` and leaves 6
half-edges. -/
theorem C2_duplicate_directed_edge_not_detected :
    addFace triMesh4 [0, 1, 3] =
      some (faceResMesh (addFace triMesh4 [0, 1, 3]), 1, none) ∧
    (faceResMesh (addFace triMesh4 [0, 1, 3])).halfEdges.length = 6 ∧
    lookupMap (faceResMesh (addFace triMesh4 [0, 1, 3])).halfEdgeMap
      (makeDirectedEdgeKey 0 1) = some 3 := by
  decide

/-- C3: the claim that an out-of-range vertex index makes `addFace`
return `INVALID` with `INVALID_VERTEX_INDEX` is violated: no such
validation exists in `Mesh::addFace`, and `addFace([0,1,999])` on a
three-vertex mesh reaches the unchecked access `vertices_[999]`
(undefined behaviour, modelled as `none`) instead of returning an
error. -/
theorem C3_no_vertex_index_validation :
    addFace (meshN 3) [0, 1, 999] = none := by
  decide

/-- C4: the claim that `findHalfEdge(a,b)` falls back to the twin of the
half-edge stored under `(b,a)` is violated: `Mesh::findHalfEdge` is a
single map lookup.  In `twinMesh` the key `(0,1)` is stored with
half-edge 0 whose twin 3 is the half-edge `1 → 0`, so the claim says
`findHalfEdge(1,0) = 3`; the code returns `INVALID`. -/
theorem C4_findHalfEdge_no_twin_fallback :
    findHalfEdge twinMesh 1 0 = INVALID ∧
    lookupMap twinMesh.halfEdgeMap (makeDirectedEdgeKey 1 0) = none ∧
    lookupMap twinMesh.halfEdgeMap (makeDirectedEdgeKey 0 1) = some 0 ∧
    (heAt twinMesh 0).twin = 3 ∧
    (heAt twinMesh 3).to = 0 ∧
    getFromVertex twinMesh 3 = 1 ∧
    (3 : Nat) ≠ INVALID := by
  decide

/-! ### C6: CSR offset arrays -/

/-- C6 counterexample: the claim includes the empty mesh, but
`TopologyCache::build` returns before allocating anything when the mesh
has no vertices, so the one-ring offset array has length 0, not
`N + 1 = 1` (and `offsets[0] = 0` fails to exist). -/
theorem C6_empty_mesh_has_no_offset_arrays :
    (TopologyCache.build {} emptyMesh).oneRingOffsets.length = 0 ∧
    emptyMesh.vertices.length + 1 = 1 := by
  decide

/-! ### Array-length lemmas for the cache build -/
theorem foldlInvariant {α σ : Type _} (f : σ → α → σ) (P : σ → Prop)
    (hstep : ∀ s a, P s → P (f s a)) :
    ∀ (l : List α) (s : σ), P s → P (l.foldl f s)
  | [], _, h => h
  | a :: l, s, h => foldlInvariant f P hstep l (f s a) (hstep s a h)

theorem edgeScanStep_lengths (m : Mesh) (ne : Nat) (s : EdgeScanState) (h : Nat) :
    (edgeScanStep m ne s h).ev.length = s.ev.length ∧
    (edgeScanStep m ne s h).flags.length = s.flags.length ∧
    (edgeScanStep m ne s h).counts.length = s.counts.length := by
  simp only [edgeScanStep]
  repeat' split
  all_goals simp [List.length_set]

theorem edgeScan_lengths (m : Mesh) (ne : Nat) :
    (edgeScan m ne).ev.length = ne ∧
    (edgeScan m ne).flags.length = ne ∧
    (edgeScan m ne).counts.length = ne := by
  refine foldlInvariant (edgeScanStep m ne)
    (fun s : EdgeScanState => s.ev.length = ne ∧ s.flags.length = ne ∧
      s.counts.length = ne) ?_ _ _ (by simp [edgeScanInit])
  intro s a hs
  have := edgeScanStep_lengths m ne s a
  omega

theorem valencesOf_length (nv ne : Nat) (ev : List (Nat × Nat)) :
    (valencesOf nv ne ev).length = nv := by
  refine foldlInvariant _ (fun s : List Nat => s.length = nv) ?_ _ _ (by simp)
  intro s e h
  dsimp only
  repeat' split
  all_goals simp [List.length_set, h]

theorem boundaryFlagsOf_length (nv ne : Nat)
    (ev : List (Nat × Nat)) (eflags : List Nat) :
    (boundaryFlagsOf nv ne ev eflags).length = nv := by
  refine foldlInvariant _ (fun s : List Nat => s.length = nv) ?_ _ _ (by simp)
  intro s e h
  dsimp only
  repeat' split
  all_goals simp [List.length_set, h]

theorem vertexFaceCountWalk_length (m : Mesh) (nv nh start : Nat) (fuel : Nat) :
    ∀ (current : Nat) (visited : List Bool) (counts : List Nat),
      (vertexFaceCountWalk m nv nh start fuel current visited counts).length =
        counts.length := by
  induction fuel with
  | zero => intro current visited counts; rfl
  | succ n ih =>
      intro current visited counts
      simp only [vertexFaceCountWalk]
      repeat' split
      all_goals simp [List.length_set, ih]

theorem vertexFaceCountsOf_length (m : Mesh) (nv nh nf : Nat) :
    (vertexFaceCountsOf m nv nh nf).length = nv := by
  refine foldlInvariant _ (fun s : List Nat => s.length = nv) ?_ _ _ (by simp)
  intro s f h
  dsimp only
  split
  · exact h
  · rw [vertexFaceCountWalk_length]; exact h

theorem csrOffsets_length (counts : List Nat) :
    (csrOffsets counts).length = counts.length + 1 :=
  List.length_scanl 0 counts

theorem csrOffsets_head (counts : List Nat) : (csrOffsets counts).getD 0 0 = 0 := by
  cases counts <;> simp [csrOffsets, List.scanl]

theorem oneRingForward_length (m : Mesh) (writeEnd start : Nat) (fuel : Nat) :
    ∀ (current : Nat) (rings : List Nat) (pos : Nat) (visited : List Bool),
      (oneRingForward m writeEnd start fuel current rings pos visited).1.length =
        rings.length := by
  induction fuel with
  | zero => intro current rings pos visited; rfl
  | succ n ih =>
      intro current rings pos visited
      simp only [oneRingForward]
      repeat' split
      all_goals simp [List.length_set, ih]

theorem oneRingBackward_length (m : Mesh) (nh writeEnd : Nat) (fuel : Nat) :
    ∀ (current : Nat) (rings : List Nat) (pos : Nat) (visited : List Bool),
      (oneRingBackward m nh writeEnd fuel current rings pos visited).1.length =
        rings.length := by
  induction fuel with
  | zero => intro current rings pos visited; rfl
  | succ n ih =>
      intro current rings pos visited
      simp only [oneRingBackward]
      repeat' split
      all_goals simp [List.length_set, ih]

theorem fillOneRings_length (m : Mesh) (nv nh : Nat) (offsets init : List Nat) :
    (fillOneRings m nv nh offsets init).length = init.length := by
  refine foldlInvariant _ (fun s : List Nat => s.length = init.length) ?_ _ _ rfl
  intro rings v h
  dsimp only
  split
  · exact h
  · split
    · rw [oneRingBackward_length, oneRingForward_length]; exact h
    · rw [oneRingForward_length]; exact h

/-- Length profile of a `FaceFillState` (the four value arrays). -/
def lengths4 (s : FaceFillState) : Nat × Nat × Nat × Nat :=
  (s.faceVertices.length, s.faceEdges.length, s.vertexFaces.length, s.edgeFaces.length)

theorem fillVertexPart_lengths (nv f fvPos fvEnd : Nat) (vfOff : List Nat)
    (v : Nat) (s : FaceFillState) :
    lengths4 (fillVertexPart nv f fvPos fvEnd vfOff v s).1 = lengths4 s := by
  simp only [fillVertexPart]
  repeat' split
  all_goals simp [lengths4, List.length_set]

theorem fillEdgePart_lengths (ne f fePos feEnd : Nat) (efOff : List Nat)
    (e : Nat) (s : FaceFillState) :
    lengths4 (fillEdgePart ne f fePos feEnd efOff e s).1 = lengths4 s := by
  simp only [fillEdgePart]
  repeat' split
  all_goals simp [lengths4, List.length_set]

theorem faceFillWalk_lengths (m : Mesh) (nv ne nh start f : Nat)
    (vfOff efOff : List Nat) (fvEnd feEnd : Nat) (fuel : Nat) :
    ∀ (current fvPos fePos : Nat) (visited : List Bool) (s : FaceFillState),
      lengths4 (faceFillWalk m nv ne nh start f vfOff efOff fvEnd feEnd fuel current
          fvPos fePos visited s) = lengths4 s := by
  induction fuel with
  | zero => intro current fvPos fePos visited s; rfl
  | succ n ih =>
      intro current fvPos fePos visited s
      simp only [faceFillWalk]
      split
      · rfl
      · split
        · rw [ih, fillEdgePart_lengths, fillVertexPart_lengths]
        · rw [fillEdgePart_lengths, fillVertexPart_lengths]

theorem faceFill_lengths (m : Mesh) (nv ne nh nf : Nat)
    (vfOff efOff fvOff feOff : List Nat) (s : FaceFillState) :
    lengths4 (faceFill m nv ne nh nf vfOff efOff fvOff feOff s) = lengths4 s := by
  refine foldlInvariant _ (fun t : FaceFillState => lengths4 t = lengths4 s) ?_ _ _ rfl
  intro t g ht
  dsimp only
  split
  · exact ht
  · rw [faceFillWalk_lengths]; exact ht

theorem getD_last_of_length (l : List Nat) (N : Nat) (h : l.length = N + 1) :
    l.getD N 0 = l.getLastD 0 := by
  have hN : N = l.length - 1 := by omega
  rw [hN, List.getLastD_eq_getLast?, List.getLast?_eq_getElem? l,
    List.getD_eq_getElem?_getD]

theorem build_lengths (c : TopologyCache) (m : Mesh)
    (hm : m.vertices.length ≠ 0) :
    (c.build m).valences.length = m.vertices.length ∧
    (c.build m).boundaryFlags.length = m.vertices.length ∧
    (c.build m).edgeVertices.length = m.edges.length ∧
    (c.build m).edgeBoundaryFlags.length = m.edges.length ∧
    (c.build m).oneRingOffsets.length = m.vertices.length + 1 ∧
    (c.build m).vertexFaceOffsets.length = m.vertices.length + 1 ∧
    (c.build m).edgeFaceOffsets.length = m.edges.length + 1 ∧
    (c.build m).faceVertexOffsets.length = m.faces.length + 1 ∧
    (c.build m).faceEdgeOffsets.length = m.faces.length + 1 ∧
    (c.build m).oneRings.length = (c.build m).oneRingOffsets.getLastD 0 ∧
    (c.build m).vertexFaces.length = (c.build m).vertexFaceOffsets.getLastD 0 ∧
    (c.build m).edgeFaces.length = (c.build m).edgeFaceOffsets.getLastD 0 ∧
    (c.build m).faceVertices.length = (c.build m).faceVertexOffsets.getLastD 0 ∧
    (c.build m).faceEdges.length = (c.build m).faceEdgeOffsets.getLastD 0 := by
  have hfill := faceFill_lengths m m.vertices.length m.edges.length
    m.halfEdges.length m.faces.length
    (csrOffsets (vertexFaceCountsOf m m.vertices.length m.halfEdges.length m.faces.length))
    (csrOffsets (edgeScan m m.edges.length).counts)
    (csrOffsets (m.faces.map (·.valence)))
    (csrOffsets (m.faces.map (·.valence)))
    { faceVertices := List.replicate ((csrOffsets (m.faces.map (·.valence))).getLastD 0) 0,
      faceEdges := List.replicate ((csrOffsets (m.faces.map (·.valence))).getLastD 0) 0,
      vertexFaces := List.replicate ((csrOffsets (vertexFaceCountsOf m m.vertices.length
        m.halfEdges.length m.faces.length)).getLastD 0) 0,
      edgeFaces := List.replicate ((csrOffsets (edgeScan m m.edges.length).counts).getLastD 0) 0,
      vfwp := csrOffsets (vertexFaceCountsOf m m.vertices.length m.halfEdges.length m.faces.length),
      efwp := csrOffsets (edgeScan m m.edges.length).counts }
  simp only [lengths4, Prod.mk.injEq, List.length_replicate] at hfill
  unfold TopologyCache.build
  rw [if_neg hm]
  simp only [TopologyCache.clearC]
  refine ⟨?_, ?_, ?_, ?_, ?_, ?_, ?_, ?_, ?_, ?_, ?_, ?_, ?_, ?_⟩
  · exact valencesOf_length _ _ _
  · exact boundaryFlagsOf_length _ _ _ _
  · exact (edgeScan_lengths m m.edges.length).1
  · exact (edgeScan_lengths m m.edges.length).2.1
  · rw [csrOffsets_length, valencesOf_length]
  · rw [csrOffsets_length, vertexFaceCountsOf_length]
  · rw [csrOffsets_length, (edgeScan_lengths m m.edges.length).2.2]
  · rw [csrOffsets_length, List.length_map]
  · rw [csrOffsets_length, List.length_map]
  · rw [fillOneRings_length, List.length_replicate]
  · exact hfill.2.2.1
  · exact hfill.2.2.2
  · exact hfill.1
  · exact hfill.2.1

/-- C6 (amended): on a non-empty mesh, each of the five CSR offset
arrays has length N+1, starts at 0 and ends at the length of its value
array. -/
theorem C6_csr_offset_arrays (c : TopologyCache) (m : Mesh)
    (hm : m.vertices.length ≠ 0) :
    ((c.build m).oneRingOffsets.length = m.vertices.length + 1 ∧
      (c.build m).oneRingOffsets.getD 0 0 = 0 ∧
      (c.build m).oneRingOffsets.getD m.vertices.length 0 =
        (c.build m).oneRings.length) ∧
    ((c.build m).vertexFaceOffsets.length = m.vertices.length + 1 ∧
      (c.build m).vertexFaceOffsets.getD 0 0 = 0 ∧
      (c.build m).vertexFaceOffsets.getD m.vertices.length 0 =
        (c.build m).vertexFaces.length) ∧
    ((c.build m).edgeFaceOffsets.length = m.edges.length + 1 ∧
      (c.build m).edgeFaceOffsets.getD 0 0 = 0 ∧
      (c.build m).edgeFaceOffsets.getD m.edges.length 0 =
        (c.build m).edgeFaces.length) ∧
    ((c.build m).faceVertexOffsets.length = m.faces.length + 1 ∧
      (c.build m).faceVertexOffsets.getD 0 0 = 0 ∧
      (c.build m).faceVertexOffsets.getD m.faces.length 0 =
        (c.build m).faceVertices.length) ∧
    ((c.build m).faceEdgeOffsets.length = m.faces.length + 1 ∧
      (c.build m).faceEdgeOffsets.getD 0 0 = 0 ∧
      (c.build m).faceEdgeOffsets.getD m.faces.length 0 =
        (c.build m).faceEdges.length) := by
  obtain ⟨h1, h2, h3, h4, h5, h6, h7, h8, h9, h10, h11, h12, h13, h14⟩ :=
    build_lengths c m hm
  have hz : ∀ x : TopologyCache, x = c.build m →
      (c.build m).oneRingOffsets.getD 0 0 = 0 ∧
      (c.build m).vertexFaceOffsets.getD 0 0 = 0 ∧
      (c.build m).edgeFaceOffsets.getD 0 0 = 0 ∧
      (c.build m).faceVertexOffsets.getD 0 0 = 0 ∧
      (c.build m).faceEdgeOffsets.getD 0 0 = 0 := by
    intro x _
    unfold TopologyCache.build
    rw [if_neg hm]
    exact ⟨csrOffsets_head _, csrOffsets_head _, csrOffsets_head _,
      csrOffsets_head _, csrOffsets_head _⟩
  obtain ⟨z1, z2, z3, z4, z5⟩ := hz (c.build m) rfl
  refine ⟨⟨h5, z1, ?_⟩, ⟨h6, z2, ?_⟩, ⟨h7, z3, ?_⟩, ⟨h8, z4, ?_⟩, ⟨h9, z5, ?_⟩⟩
  · rw [getD_last_of_length _ _ h5, h10]
  · rw [getD_last_of_length _ _ h6, h11]
  · rw [getD_last_of_length _ _ h7, h12]
  · rw [getD_last_of_length _ _ h8, h13]
  · rw [getD_last_of_length _ _ h9, h14]

/-- C9: after a cache build on a non-empty mesh every accessor is total
on out-of-range indices. -/
theorem C9_accessors_total_out_of_range (c : TopologyCache) (m : Mesh)
    (hm : m.vertices.length ≠ 0) :
    (∀ v, m.vertices.length ≤ v →
      (c.build m).getValence v = 0 ∧
      (c.build m).isBoundaryVertexC v = false ∧
      (c.build m).getVertexOneRing v = [] ∧
      (c.build m).getVertexFaces v = []) ∧
    (∀ e, m.edges.length ≤ e →
      (c.build m).isBoundaryEdgeC e = false ∧
      (c.build m).getEdgeVerticesC e = (INVALID, INVALID) ∧
      (c.build m).getEdgeFaces e = []) ∧
    (∀ f, m.faces.length ≤ f →
      (c.build m).getFaceVertices f = [] ∧
      (c.build m).getFaceEdges f = []) := by
  obtain ⟨h1, h2, h3, h4, h5, h6, h7, h8, h9, _⟩ := build_lengths c m hm
  refine ⟨fun v hv => ⟨?_, ?_, ?_, ?_⟩, fun e he => ⟨?_, ?_, ?_⟩, fun f hf => ⟨?_, ?_⟩⟩
  · rw [TopologyCache.getValence, if_neg (by omega)]
  · rw [TopologyCache.isBoundaryVertexC, if_neg (by omega)]
  · rw [TopologyCache.getVertexOneRing, csrSpan, if_pos (by omega)]
  · rw [TopologyCache.getVertexFaces, csrSpan, if_pos (by omega)]
  · rw [TopologyCache.isBoundaryEdgeC, if_neg (by omega)]
  · rw [TopologyCache.getEdgeVerticesC, if_neg (by omega)]
  · rw [TopologyCache.getEdgeFaces, csrSpan, if_pos (by omega)]
  · rw [TopologyCache.getFaceVertices, csrSpan, if_pos (by omega)]
  · rw [TopologyCache.getFaceEdges, csrSpan, if_pos (by omega)]

/-- Witness for C6 at the single-triangle mesh. -/
theorem C6_csr_offset_arrays_witness :
    triMesh.vertices.length ≠ 0 ∧
    (TopologyCache.build {} triMesh).oneRingOffsets.length =
      triMesh.vertices.length + 1 ∧
    (TopologyCache.build {} triMesh).faceEdgeOffsets.getD triMesh.faces.length 0 =
      (TopologyCache.build {} triMesh).faceEdges.length :=
  ⟨by decide, ((C6_csr_offset_arrays {} triMesh (by decide)).1).1,
    ((C6_csr_offset_arrays {} triMesh (by decide)).2.2.2.2).2.2⟩

/-- Witness for C9 at the single-triangle mesh with indices past the
element counts. -/
theorem C9_accessors_total_witness :
    triMesh.vertices.length ≠ 0 ∧ triMesh.vertices.length ≤ 5 ∧
    triMesh.edges.length ≤ 7 ∧ triMesh.faces.length ≤ 9 ∧
    (TopologyCache.build {} triMesh).getValence 5 = 0 ∧
    (TopologyCache.build {} triMesh).getVertexOneRing 5 = [] ∧
    (TopologyCache.build {} triMesh).getEdgeVerticesC 7 = (INVALID, INVALID) ∧
    (TopologyCache.build {} triMesh).getFaceVertices 9 = [] :=
  ⟨by decide, by decide, by decide, by decide,
    ((C9_accessors_total_out_of_range {} triMesh (by decide)).1 5 (by decide)).1,
    ((C9_accessors_total_out_of_range {} triMesh (by decide)).1 5 (by decide)).2.2.1,
    ((C9_accessors_total_out_of_range {} triMesh (by decide)).2.1 7 (by decide)).2.1,
    ((C9_accessors_total_out_of_range {} triMesh (by decide)).2.2 9 (by decide)).1⟩

theorem getD_set_cases {α : Type _} (l : List α) (i j : Nat) (a d : α) :
    (l.set i a).getD j d = a ∨ (l.set i a).getD j d = l.getD j d := by
  rcases eq_or_ne i j with rfl | hij
  · by_cases hi : i < l.length
    · left; simp [List.getD, List.getElem?_set_self', hi]
    · right; rw [List.set_eq_of_length_le (by omega)]
  · right; simp [List.getD, List.getElem?_set_ne hij]

/-- The `ev` array after one scan step: unchanged, or one entry set to
the canonical pair of the half-edge's endpoints. -/
theorem edgeScanStep_ev (m : Mesh) (ne : Nat) (s : EdgeScanState) (h : Nat) :
    (edgeScanStep m ne s h).ev = s.ev ∨
    (edgeScanStep m ne s h).ev =
      s.ev.set (heAt m h).edge (canonPair (getFromVertex m h) (heAt m h).to) := by
  simp only [edgeScanStep]
  repeat' split
  all_goals simp

theorem toAt_ne (m : Mesh) (v : Nat) (hvi : v ≠ INVALID)
    (hto : ∀ he ∈ m.halfEdges, he.to ≠ v) :
    ∀ p, (m.halfEdges.getD p ({} : HalfEdge)).to ≠ v := by
  intro p
  rcases h : m.halfEdges[p]? with _ | he
  · simp [List.getD, h]
    exact fun hh => hvi hh.symm
  · simp [List.getD, h]
    exact hto he (List.getElem?_mem h)

theorem getFromVertex_ne (m : Mesh) (v : Nat) (hvi : v ≠ INVALID)
    (hto : ∀ he ∈ m.halfEdges, he.to ≠ v) :
    ∀ h, getFromVertex m h ≠ v := by
  intro h
  simp only [getFromVertex]
  rcases hh : m.halfEdges[h]? with _ | he <;> simp only [hh]
  · exact fun hc => hvi hc.symm
  · split
    · exact fun hc => hvi hc.symm
    · exact toAt_ne m v hvi hto he.prev

theorem canonPair_avoids {v a b : Nat} (ha : a ≠ v) (hb : b ≠ v) :
    (canonPair a b).1 ≠ v ∧ (canonPair a b).2 ≠ v := by
  unfold canonPair
  split <;> exact ⟨by assumption, by assumption⟩

/-- In the phase-1 scan of a mesh none of whose half-edges points at
`v`, no edge-vertex entry ever equals `v`. -/
theorem edgeScan_ev_avoids (m : Mesh) (ne : Nat) (v : Nat) (hvi : v ≠ INVALID)
    (hto : ∀ he ∈ m.halfEdges, he.to ≠ v) :
    ∀ e, ((edgeScan m ne).ev.getD e (INVALID, INVALID)).1 ≠ v ∧
         ((edgeScan m ne).ev.getD e (INVALID, INVALID)).2 ≠ v := by
  refine foldlInvariant (edgeScanStep m ne)
    (fun s : EdgeScanState =>
      ∀ e, (s.ev.getD e (INVALID, INVALID)).1 ≠ v ∧
           (s.ev.getD e (INVALID, INVALID)).2 ≠ v) ?_ _ _ ?_
  · intro s h hs e
    rcases edgeScanStep_ev m ne s h with hev | hev <;> rw [hev]
    · exact hs e
    · rcases getD_set_cases s.ev (heAt m h).edge e
        (canonPair (getFromVertex m h) (heAt m h).to) (INVALID, INVALID) with hc | hc
      · rw [hc]
        exact canonPair_avoids (getFromVertex_ne m v hvi hto h)
          (by simpa [heAt] using toAt_ne m v hvi hto h)
      · rw [hc]; exact hs e
  · intro e
    constructor <;> (simp [edgeScanInit, List.getD]; intro hh; exact hvi hh.symm)

theorem getD_set_ne {α : Type _} {i j : Nat} (hij : i ≠ j) (l : List α) (a d : α) :
    (l.set i a).getD j d = l.getD j d := by
  simp [List.getD, List.getElem?_set_ne hij]

theorem valencesOf_entry_zero (nv ne : Nat) (ev : List (Nat × Nat)) (v : Nat)
    (hav : ∀ e, (ev.getD e (INVALID, INVALID)).1 ≠ v ∧
                (ev.getD e (INVALID, INVALID)).2 ≠ v) :
    (valencesOf nv ne ev).getD v 0 = 0 := by
  refine foldlInvariant _ (fun s : List Nat => s.getD v 0 = 0) ?_ _ _ (by simp [List.getD])
  intro s e h
  have h1 := (hav e).1
  have h2 := (hav e).2
  dsimp only
  repeat' split
  all_goals (try rw [getD_set_ne h2]); (try rw [getD_set_ne h1]); exact h

theorem boundaryFlagsOf_entry_zero (nv ne : Nat) (ev : List (Nat × Nat))
    (eflags : List Nat) (v : Nat)
    (hav : ∀ e, (ev.getD e (INVALID, INVALID)).1 ≠ v ∧
                (ev.getD e (INVALID, INVALID)).2 ≠ v) :
    (boundaryFlagsOf nv ne ev eflags).getD v 0 = 0 := by
  refine foldlInvariant _ (fun s : List Nat => s.getD v 0 = 0) ?_ _ _ (by simp [List.getD])
  intro s e h
  have h1 := (hav e).1
  have h2 := (hav e).2
  dsimp only
  repeat' split
  all_goals (try rw [getD_set_ne h2]); (try rw [getD_set_ne h1]); exact h

/-- C10: an isolated vertex (outgoing half-edge `INVALID`, not the
target of any half-edge — e.g. freshly added by `addVertex` and never
used in a face) has `Mesh::getVertexValence = 0` and
`Mesh::isBoundaryVertex = true`, while after a cache build the cache
reports valence 0 and boundary flag `false` for the same vertex. -/
theorem C10_isolated_vertex (c : TopologyCache) (m : Mesh) (v : Nat)
    (hv : v < m.vertices.length) (hvi : v ≠ INVALID)
    (hout : (m.vertices.getD v {}).outgoing = INVALID)
    (hto : ∀ he ∈ m.halfEdges, he.to ≠ v) :
    getVertexValence m v = some 0 ∧
    isBoundaryVertexMesh m v = some true ∧
    (c.build m).getValence v = 0 ∧
    (c.build m).isBoundaryVertexC v = false := by
  have hm : m.vertices.length ≠ 0 := by omega
  have hsome : m.vertices[v]? = some (m.vertices.getD v {}) := by
    simp [List.getD, List.getElem?_eq_getElem hv]
  have hzero : (c.build m).valences.getD v 0 = 0 ∧
      (c.build m).boundaryFlags.getD v 0 = 0 := by
    unfold TopologyCache.build
    rw [if_neg hm]
    exact ⟨valencesOf_entry_zero _ _ _ v (edgeScan_ev_avoids m m.edges.length v hvi hto),
      boundaryFlagsOf_entry_zero _ _ _ _ v (edgeScan_ev_avoids m m.edges.length v hvi hto)⟩
  have hlen := build_lengths c m hm
  refine ⟨?_, ?_, ?_, ?_⟩
  · simp only [getVertexValence, hsome]
    rw [if_pos hout]
  · simp only [isBoundaryVertexMesh, hsome]
    rw [if_pos hout]
  · rw [TopologyCache.getValence, if_pos (by omega), hzero.1]
  · rw [TopologyCache.isBoundaryVertexC, if_pos (by omega), hzero.2]
    simp

/-- Witness for C10 at the mesh `triMesh` plus a fresh vertex 3. -/
theorem C10_isolated_vertex_witness :
    (3 < isoMesh.vertices.length ∧ (3 : Nat) ≠ INVALID ∧
      (isoMesh.vertices.getD 3 {}).outgoing = INVALID ∧
      (∀ he ∈ isoMesh.halfEdges, he.to ≠ 3)) ∧
    getVertexValence isoMesh 3 = some 0 ∧
    isBoundaryVertexMesh isoMesh 3 = some true ∧
    (TopologyCache.build {} isoMesh).getValence 3 = 0 ∧
    (TopologyCache.build {} isoMesh).isBoundaryVertexC 3 = false :=
  ⟨⟨by decide, by decide, by decide, by decide⟩,
    C10_isolated_vertex {} isoMesh 3 (by decide) (by decide) (by decide) (by decide)⟩

/-- One `next` step (`halfEdges[h].next`). -/
def nextAt (m : Mesh) (h : Nat) : Nat := (heAt m h).next

/-- The claim's vertex sequence for face `f`: walk `next` from
`face.edge` for `valence` steps, taking `from_vertex` at each step. -/
def faceWalkVerts (m : Mesh) (f : Nat) : List Nat :=
  (List.range (faceAt m f).valence).map
    (fun k => getFromVertex m ((nextAt m)^[k] (faceAt m f).edge))

/-- Well-formedness used by C8: every face has valence at least 3 and
its `next` loop, started at `face.edge`, stays in bounds, yields a valid
`from_vertex` at every step, and returns to the start after exactly
`valence` steps and not earlier (the §3 face-loop invariant). -/
def TriWellFormed (m : Mesh) : Prop :=
  m.halfEdges.length ≤ INVALID ∧
  ∀ f < m.faces.length,
    3 ≤ (faceAt m f).valence ∧
    (∀ k < (faceAt m f).valence,
      (nextAt m)^[k] (faceAt m f).edge < m.halfEdges.length ∧
      getFromVertex m ((nextAt m)^[k] (faceAt m f).edge) ≠ INVALID) ∧
    (nextAt m)^[(faceAt m f).valence] (faceAt m f).edge = (faceAt m f).edge ∧
    (∀ k < (faceAt m f).valence, 0 < k →
      (nextAt m)^[k] (faceAt m f).edge ≠ (faceAt m f).edge)

theorem triWalk_spec (m : Mesh) (start n : Nat)
    (hlen : m.halfEdges.length ≤ INVALID)
    (hin : ∀ k < n, (nextAt m)^[k] start < m.halfEdges.length)
    (hfrom : ∀ k < n, getFromVertex m ((nextAt m)^[k] start) ≠ INVALID)
    (hcyc : (nextAt m)^[n] start = start)
    (hnot : ∀ k, 0 < k → k < n → (nextAt m)^[k] start ≠ start) :
    ∀ j k, j + k = n → 0 < j →
      triWalk m start n (n + 12 - k) ((nextAt m)^[k] start) k
        ((List.range k).map (fun i => getFromVertex m ((nextAt m)^[i] start))) =
      (List.range n).map (fun i => getFromVertex m ((nextAt m)^[i] start)) := by
  intro j
  induction j with
  | zero => intro k hk h0; omega
  | succ jj ih =>
      intro k hk _
      have hkn : k < n := by omega
      have hfuel : n + 12 - k = (n + 12 - (k + 1)) + 1 := by omega
      rw [hfuel]
      simp only [triWalk]
      rw [if_pos (hfrom k hkn)]
      rw [show (heAt m ((nextAt m)^[k] start)).next = (nextAt m)^[k + 1] start from
        (Function.iterate_succ_apply' (nextAt m) k start).symm]
      rw [if_neg (by omega : ¬ k + 1 > n + 10)]
      have hacc : (List.range k).map
            (fun i => getFromVertex m ((nextAt m)^[i] start)) ++
            [getFromVertex m ((nextAt m)^[k] start)] =
          (List.range (k + 1)).map
            (fun i => getFromVertex m ((nextAt m)^[i] start)) := by
        rw [List.range_succ, List.map_append]; rfl
      rcases Nat.eq_zero_or_pos jj with hjj | hjj
      · have hk1 : k + 1 = n := by omega
        rw [if_neg]
        · rw [hacc, hk1]
        · rw [hk1, hcyc]; simp
      · rw [if_pos ⟨hnot (k + 1) (by omega) (by omega), by
            have := hin (k + 1) (by omega); omega⟩]
        rw [hacc]
        exact ih (k + 1) (by omega) hjj

theorem faceTriangleIndices_spec (m : Mesh) (hlen : m.halfEdges.length ≤ INVALID)
    (f : Nat)
    (hval : 3 ≤ (faceAt m f).valence)
    (hin : ∀ k < (faceAt m f).valence,
      (nextAt m)^[k] (faceAt m f).edge < m.halfEdges.length ∧
      getFromVertex m ((nextAt m)^[k] (faceAt m f).edge) ≠ INVALID)
    (hcyc : (nextAt m)^[(faceAt m f).valence] (faceAt m f).edge = (faceAt m f).edge)
    (hnot : ∀ k, 0 < k → k < (faceAt m f).valence →
      (nextAt m)^[k] (faceAt m f).edge ≠ (faceAt m f).edge) :
    faceTriangleIndices m f = fanTriangles (faceWalkVerts m f) := by
  have hstart : (faceAt m f).edge < m.halfEdges.length := by
    have := (hin 0 (by omega)).1
    simpa using this
  unfold faceTriangleIndices
  rw [if_neg (by omega)]
  rw [if_neg (by push_neg; exact ⟨by omega, by omega⟩)]
  have := triWalk_spec m (faceAt m f).edge (faceAt m f).valence hlen
    (fun k hk => (hin k hk).1) (fun k hk => (hin k hk).2) hcyc hnot
    (faceAt m f).valence 0 (by omega) (by omega)
  simp only [Nat.sub_zero, List.range_zero, List.map_nil,
    Function.iterate_zero_apply] at this
  rw [this]
  rfl

theorem fanTriangles_length (vs : List Nat) (h3 : 3 ≤ vs.length) :
    (fanTriangles vs).length = 3 * (vs.length - 2) := by
  rw [fanTriangles, if_pos h3, List.length_flatMap]
  have hmap : (List.range' 1 (vs.length - 2)).map
      (List.length ∘ fun i => [vs.getD 0 0, vs.getD i 0, vs.getD (i + 1) 0]) =
      List.replicate (vs.length - 2) 3 := by
    rw [List.eq_replicate_iff]
    refine ⟨by rw [List.length_map, List.length_range'], ?_⟩
    intro b hb
    rcases List.mem_map.mp hb with ⟨i, _, hi⟩
    rw [← hi]; rfl
  rw [hmap, List.sum_replicate, smul_eq_mul, Nat.mul_comm]

/-- C8: on a well-formed mesh the triangle extractor emits, for each
face of valence n ≥ 3, exactly the fan `(v_0, v_i, v_{i+1})`,
`i = 1 .. n-2`, over the vertex sequence obtained by walking `next`
from `face.edge` and taking `from_vertex` at each step; each face thus
contributes `n - 2` triangles (`3 (n-2)` indices). -/
theorem C8_fan_triangulation (m : Mesh) (hwf : TriWellFormed m) :
    buildTriangleIndices m =
      (List.range m.faces.length).flatMap (fun f => fanTriangles (faceWalkVerts m f)) ∧
    ∀ f < m.faces.length,
      (fanTriangles (faceWalkVerts m f)).length = 3 * ((faceAt m f).valence - 2) := by
  obtain ⟨hlen, hface⟩ := hwf
  constructor
  · unfold buildTriangleIndices
    apply List.flatMap_congr
    intro f hf
    have h := hface f (List.mem_range.mp hf)
    exact faceTriangleIndices_spec m hlen f h.1 h.2.1 h.2.2.1
      (fun k h0 hk => h.2.2.2 k hk h0)
  · intro f hf
    have h := hface f hf
    rw [fanTriangles_length]
    · rw [faceWalkVerts, List.length_map, List.length_range]
    · rw [faceWalkVerts, List.length_map, List.length_range]; exact h.1

/-- Five vertices and the single pentagon `(0,1,2,3,4)`. -/
def pentMesh : Mesh := faceResMesh (addFace (meshN 5) [0, 1, 2, 3, 4])

/-- Witness for C8 at the pentagon: one face of valence 5, three fan
triangles. -/
theorem C8_fan_triangulation_witness :
    TriWellFormed pentMesh ∧
    buildTriangleIndices pentMesh =
      (List.range pentMesh.faces.length).flatMap
        (fun f => fanTriangles (faceWalkVerts pentMesh f)) ∧
    buildTriangleIndices pentMesh = [0, 1, 2, 0, 2, 3, 0, 3, 4] :=
  ⟨by unfold TriWellFormed; decide,
    (C8_fan_triangulation pentMesh (by unfold TriWellFormed; decide)).1, by decide⟩

/-! ### C5: canonical edge order and boundary flags after a cache build

The builder-side structural invariant (`MeshWF`), its preservation by
the success paths of `addVertex`/`addFace`, and the phase-1 cache
correctness it implies. -/

/-! ### C5: canonical edge vertices and boundary flags -/

/-- Indices of the half-edges referencing edge `e`. -/
def edgeHEs (m : Mesh) (e : Nat) : List Nat :=
  (List.range m.halfEdges.length).filter (fun h => (heAt m h).edge = e)

/-- Number of half-edges of edge `e` carrying a valid face — the number
of faces adjacent to `e` (phase 1 counts exactly these). -/
def edgeAdjFaceCount (m : Mesh) (e : Nat) : Nat :=
  ((List.range m.halfEdges.length).filter
    (fun h => (heAt m h).edge = e ∧ (heAt m h).face ≠ INVALID)).length

theorem lookupMap_mem (l : List (Nat × Nat)) (k v : Nat)
    (h : lookupMap l k = some v) : (k, v) ∈ l := by
  induction l with
  | nil => simp [lookupMap] at h
  | cons p rest ih =>
      rw [lookupMap] at h
      split at h
      · rename_i hp
        cases h
        exact List.mem_cons.mpr (Or.inl (by rw [← hp]))
      · exact List.mem_cons.mpr (Or.inr (ih h))

theorem lookupMap_insertMap (l : List (Nat × Nat)) (k v k' : Nat) :
    lookupMap (insertMap l k v) k' =
      if k' = k then some v else lookupMap l k' := by
  induction l with
  | nil =>
      rcases eq_or_ne k' k with rfl | hk
      · simp [insertMap, lookupMap]
      · simp [insertMap, lookupMap, hk, Ne.symm hk]
  | cons p rest ih =>
      rcases eq_or_ne p.1 k with hp | hp
      · rcases eq_or_ne k' k with rfl | hk
        · simp [insertMap, lookupMap, hp]
        · have hpk' : p.1 ≠ k' := by rw [hp]; exact Ne.symm hk
          simp [insertMap, lookupMap, hp, hk, Ne.symm hk, hpk']
      · rcases eq_or_ne p.1 k' with hq | hq
        · have hk : k' ≠ k := fun hc => hp (hq.trans hc)
          simp [insertMap, lookupMap, hp, hq, hk]
        · simp [insertMap, lookupMap, hp, hq, ih]

theorem mem_insertMap (l : List (Nat × Nat)) (k v : Nat) (p : Nat × Nat)
    (h : p ∈ insertMap l k v) : p ∈ l ∨ p = (k, v) := by
  induction l with
  | nil =>
      simp [insertMap] at h
      right
      simp [h]
  | cons q rest ih =>
      rw [insertMap] at h
      split at h <;> rename_i hq
      · rcases List.mem_cons.mp h with rfl | hmem
        · right; rfl
        · left; exact List.mem_cons.mpr (Or.inr hmem)
      · rcases List.mem_cons.mp h with rfl | hmem
        · left; exact List.mem_cons_self _ _
        · rcases ih hmem with h1 | h2
          · left; exact List.mem_cons.mpr (Or.inr h1)
          · right; exact h2

theorem makeDirectedEdgeKey_inj {a b c d : Nat}
    (hb : b ≤ INVALID) (hd : d ≤ INVALID)
    (h : makeDirectedEdgeKey a b = makeDirectedEdgeKey c d) : a = c ∧ b = d := by
  unfold makeDirectedEdgeKey at h
  unfold INVALID at hb hd
  omega

theorem hasDuplicate_eq_false_iff (verts : List Nat) :
    hasDuplicate verts = false ↔ verts.Nodup := by
  induction verts with
  | nil => simp [hasDuplicate]
  | cons v rest ih =>
      rw [hasDuplicate]
      simp [ih, List.elem_iff]

theorem getD_set_self {α : Type _} (l : List α) (e : Nat) (a d : α)
    (h : e < l.length) : (l.set e a).getD e d = a := by
  simp [List.getD, List.getElem?_set_self', h]

theorem canonPair_lt {a b : Nat} (h : a ≠ b) :
    (canonPair a b).1 < (canonPair a b).2 := by
  unfold canonPair
  split <;> simp <;> omega

theorem foldl_range_succ {σ : Type _} (f : σ → Nat → σ) (init : σ) (n : Nat) :
    (List.range (n + 1)).foldl f init = f ((List.range n).foldl f init) n := by
  rw [List.range_succ, List.foldl_append]
  rfl

/-- The flags array after one scan step, in closed form. -/
theorem edgeScanStep_flags_eq (m : Mesh) (ne : Nat) (s : EdgeScanState) (h : Nat) :
    (edgeScanStep m ne s h).flags =
      if ((heAt m h).edge ≠ INVALID ∧ (heAt m h).edge < ne) ∧
          (heAt m h).twin ≠ INVALID then
        s.flags.set (heAt m h).edge 0
      else s.flags := by
  simp only [edgeScanStep]
  repeat' split
  all_goals simp_all
  all_goals omega

/-- The edge-vertex array after one scan step, in closed form. -/
theorem edgeScanStep_ev_eq (m : Mesh) (ne : Nat) (s : EdgeScanState) (h : Nat) :
    (edgeScanStep m ne s h).ev =
      if ((heAt m h).edge ≠ INVALID ∧ (heAt m h).edge < ne) ∧
          (s.ev.getD (heAt m h).edge (INVALID, INVALID)).1 = INVALID then
        s.ev.set (heAt m h).edge (canonPair (getFromVertex m h) (heAt m h).to)
      else s.ev := by
  simp only [edgeScanStep]
  repeat' split
  all_goals simp_all
  all_goals omega

theorem exists_lt_succ_iff (P : Nat → Prop) (k : Nat) :
    (∃ h < k + 1, P h) ↔ (∃ h < k, P h) ∨ P k := by
  constructor
  · rintro ⟨h, hlt, hp⟩
    rcases Nat.lt_succ_iff_lt_or_eq.mp hlt with h1 | rfl
    · exact Or.inl ⟨h, h1, hp⟩
    · exact Or.inr hp
  · rintro (⟨h, hlt, hp⟩ | hp)
    · exact ⟨h, by omega, hp⟩
    · exact ⟨k, by omega, hp⟩

/-- Prefix characterization of the phase-1 boundary flags: entry `e` is
0 exactly when a processed half-edge of `e` carries a twin. -/
theorem edgeScan_flags_char (m : Mesh) (ne : Nat) (hne : ne ≤ INVALID)
    (e : Nat) (he : e < ne) :
    ∀ k,
      ((List.range k).foldl (edgeScanStep m ne) (edgeScanInit ne)).flags.length = ne ∧
      ((List.range k).foldl (edgeScanStep m ne) (edgeScanInit ne)).flags.getD e 0 =
        (if ∃ h < k, (heAt m h).edge = e ∧ (heAt m h).twin ≠ INVALID then 0 else 1) := by
  intro k
  induction k with
  | zero =>
      refine ⟨by simp [edgeScanInit], ?_⟩
      rw [if_neg (by omega)]
      simp [edgeScanInit, List.getD, List.getElem?_replicate, he]
  | succ k ih =>
      rw [foldl_range_succ, edgeScanStep_flags_eq]
      set s := (List.range k).foldl (edgeScanStep m ne) (edgeScanInit ne) with hs
      refine ⟨?_, ?_⟩
      · split <;> simp [List.length_set, ih.1]
      · by_cases hPk : (heAt m k).edge = e ∧ (heAt m k).twin ≠ INVALID
        · rw [if_pos ⟨⟨by rw [hPk.1]; omega, by rw [hPk.1]; exact he⟩, hPk.2⟩]
          rw [hPk.1, getD_set_self _ _ _ _ (by rw [ih.1]; exact he)]
          rw [if_pos ((exists_lt_succ_iff _ k).mpr (Or.inr hPk))]
        · have hrhs : (∃ h < k + 1, (heAt m h).edge = e ∧ (heAt m h).twin ≠ INVALID) ↔
              (∃ h < k, (heAt m h).edge = e ∧ (heAt m h).twin ≠ INVALID) := by
            rw [exists_lt_succ_iff]
            exact or_iff_left hPk
          rw [if_congr hrhs rfl rfl]
          split <;> rename_i hcond
          · have hne' : (heAt m k).edge ≠ e := fun heq => hPk ⟨heq, hcond.2⟩
            rw [getD_set_ne hne', ih.2]
          · exact ih.2

/-- Prefix characterization of the phase-1 edge-vertex entries: an entry
stays `(INVALID, INVALID)` until some half-edge of its edge is
processed, and from then on holds a strictly increasing pair. -/
theorem edgeScan_ev_char (m : Mesh) (ne : Nat) (hne : ne ≤ INVALID)
    (hneq : ∀ h < m.halfEdges.length, getFromVertex m h ≠ (heAt m h).to)
    (e : Nat) (he : e < ne) :
    ∀ k, k ≤ m.halfEdges.length →
      ((List.range k).foldl (edgeScanStep m ne) (edgeScanInit ne)).ev.length = ne ∧
      ((¬ ∃ h < k, (heAt m h).edge = e) →
        ((List.range k).foldl (edgeScanStep m ne) (edgeScanInit ne)).ev.getD e
          (INVALID, INVALID) = (INVALID, INVALID)) ∧
      ((∃ h < k, (heAt m h).edge = e) →
        (((List.range k).foldl (edgeScanStep m ne) (edgeScanInit ne)).ev.getD e
            (INVALID, INVALID)).1 <
        (((List.range k).foldl (edgeScanStep m ne) (edgeScanInit ne)).ev.getD e
            (INVALID, INVALID)).2) := by
  intro k
  induction k with
  | zero =>
      intro _
      refine ⟨by simp [edgeScanInit], ?_, ?_⟩
      · intro _
        simp [edgeScanInit, List.getD, List.getElem?_replicate, he]
      · rintro ⟨h, hh, _⟩
        omega
  | succ k ih =>
      intro hk1
      obtain ⟨ihl, ihno, ihlt⟩ := ih (by omega)
      rw [foldl_range_succ, edgeScanStep_ev_eq]
      set s := (List.range k).foldl (edgeScanStep m ne) (edgeScanInit ne) with hs
      by_cases hPk : (heAt m k).edge = e
      · by_cases hinv : (s.ev.getD (heAt m k).edge (INVALID, INVALID)).1 = INVALID
        · rw [if_pos ⟨⟨by rw [hPk]; omega, by rw [hPk]; exact he⟩, hinv⟩]
          refine ⟨by simp [List.length_set, ihl], ?_, ?_⟩
          · intro hno
            exact absurd ⟨k, by omega, hPk⟩ hno
          · intro _
            rw [hPk, getD_set_self _ _ _ _ (by rw [ihl]; exact he)]
            exact canonPair_lt (hneq k (by omega))
        · rw [if_neg (fun hc => hinv hc.2)]
          refine ⟨ihl, ?_, ?_⟩
          · intro hno
            exact absurd ⟨k, by omega, hPk⟩ hno
          · intro _
            apply ihlt
            by_contra hno
            rw [hPk] at hinv
            exact hinv (by rw [ihno hno])
      · have hiff : (∃ h < k + 1, (heAt m h).edge = e) ↔ (∃ h < k, (heAt m h).edge = e) := by
          rw [exists_lt_succ_iff]
          exact or_iff_left hPk
        have hgetD : (if ((heAt m k).edge ≠ INVALID ∧ (heAt m k).edge < ne) ∧
              (s.ev.getD (heAt m k).edge (INVALID, INVALID)).1 = INVALID then
              s.ev.set (heAt m k).edge (canonPair (getFromVertex m k) (heAt m k).to)
            else s.ev).getD e (INVALID, INVALID) = s.ev.getD e (INVALID, INVALID) := by
          split
          · exact getD_set_ne hPk _ _ _
          · rfl
        have hlen : (if ((heAt m k).edge ≠ INVALID ∧ (heAt m k).edge < ne) ∧
              (s.ev.getD (heAt m k).edge (INVALID, INVALID)).1 = INVALID then
              s.ev.set (heAt m k).edge (canonPair (getFromVertex m k) (heAt m k).to)
            else s.ev).length = ne := by
          split <;> simp [List.length_set, ihl]
        refine ⟨hlen, ?_, ?_⟩
        · intro hno
          rw [hgetD]
          exact ihno (fun hex => hno (hiff.mpr hex))
        · intro hex
          rw [hgetD]
          exact ihlt (hiff.mp hex)

/-- Structural well-formedness maintained by the builder's success
paths (the §3 invariants that phase 1 of the cache relies on). -/
structure MeshWF (m : Mesh) : Prop where
  hesBound : m.halfEdges.length ≤ INVALID
  edgesBound : m.edges.length ≤ INVALID
  edgeValid : ∀ h < m.halfEdges.length, (heAt m h).edge < m.edges.length
  faceValid : ∀ h < m.halfEdges.length, (heAt m h).face ≠ INVALID
  prevValid : ∀ h < m.halfEdges.length, (heAt m h).prev < m.halfEdges.length
  fromNeTo : ∀ h < m.halfEdges.length, (heAt m (heAt m h).prev).to ≠ (heAt m h).to
  mapValid : ∀ p ∈ m.halfEdgeMap, p.2 < m.halfEdges.length
  pairing : ∀ e < m.edges.length,
    (∃ h, edgeHEs m e = [h] ∧ (heAt m h).twin = INVALID) ∨
    (∃ h1 h2, edgeHEs m e = [h1, h2] ∧
      (heAt m h1).twin ≠ INVALID ∧ (heAt m h2).twin ≠ INVALID)

theorem mem_edgeHEs (m : Mesh) (e h : Nat) :
    h ∈ edgeHEs m e ↔ h < m.halfEdges.length ∧ (heAt m h).edge = e := by
  simp [edgeHEs, List.mem_filter, List.mem_range]

theorem heAt_some (m : Mesh) (h : Nat) (hh : h < m.halfEdges.length) :
    m.halfEdges[h]? = some (heAt m h) := by
  simp [heAt, List.getD, List.getElem?_eq_getElem hh]

theorem getFromVertex_eq (m : Mesh) (h : Nat) (hh : h < m.halfEdges.length)
    (hpne : (heAt m h).prev ≠ INVALID) :
    getFromVertex m h = (heAt m (heAt m h).prev).to := by
  simp only [getFromVertex, heAt_some m h hh]
  rw [if_neg hpne]
  rfl

theorem meshWF_from_ne_to (m : Mesh) (hwf : MeshWF m) :
    ∀ h < m.halfEdges.length, getFromVertex m h ≠ (heAt m h).to := by
  intro h hh
  have hp := hwf.prevValid h hh
  have hpne : (heAt m h).prev ≠ INVALID := by
    have := hwf.hesBound
    omega
  rw [getFromVertex_eq m h hh hpne]
  exact hwf.fromNeTo h hh

theorem edgeAdjFaceCount_eq (m : Mesh)
    (hface : ∀ h < m.halfEdges.length, (heAt m h).face ≠ INVALID) (e : Nat) :
    edgeAdjFaceCount m e = (edgeHEs m e).length := by
  unfold edgeAdjFaceCount edgeHEs
  congr 1
  apply List.filter_congr
  intro h hh
  have hf := hface h (List.mem_range.mp hh)
  simp [hf]

/-- Phase-1 correctness on a structurally well-formed mesh: canonical
edge vertices and the boundary flag deciding "fewer than two adjacent
faces". -/
theorem meshWF_cache_edges (c : TopologyCache) (m : Mesh) (hwf : MeshWF m) :
    ∀ e < (c.build m).edgeVertices.length,
      ((c.build m).edgeVertices.getD e (INVALID, INVALID)).1 <
        ((c.build m).edgeVertices.getD e (INVALID, INVALID)).2 ∧
      ((c.build m).edgeBoundaryFlags.getD e 0 = 1 ↔ edgeAdjFaceCount m e < 2) := by
  intro e he
  by_cases hm : m.vertices.length = 0
  · exfalso
    revert he
    unfold TopologyCache.build
    rw [if_pos hm]
    simp [TopologyCache.clearC]
  · have hev : (c.build m).edgeVertices = (edgeScan m m.edges.length).ev := by
      unfold TopologyCache.build
      rw [if_neg hm]
    have hfl : (c.build m).edgeBoundaryFlags = (edgeScan m m.edges.length).flags := by
      unfold TopologyCache.build
      rw [if_neg hm]
    have hee : e < m.edges.length := by
      rw [hev, (edgeScan_lengths m m.edges.length).1] at he
      exact he
    -- some half-edge references e
    have hex : ∃ h < m.halfEdges.length, (heAt m h).edge = e := by
      rcases hwf.pairing e hee with ⟨h0, hlist, _⟩ | ⟨h1, h2, hlist, _, _⟩
      · have : h0 ∈ edgeHEs m e := by rw [hlist]; exact List.mem_singleton.mpr rfl
        exact ⟨h0, ((mem_edgeHEs m e h0).mp this).1, ((mem_edgeHEs m e h0).mp this).2⟩
      · have : h1 ∈ edgeHEs m e := by rw [hlist]; exact List.mem_cons_self _ _
        exact ⟨h1, ((mem_edgeHEs m e h1).mp this).1, ((mem_edgeHEs m e h1).mp this).2⟩
    constructor
    · rw [hev]
      exact (edgeScan_ev_char m m.edges.length hwf.edgesBound
        (meshWF_from_ne_to m hwf) e hee m.halfEdges.length (le_refl _)).2.2 hex
    · rw [hfl]
      unfold edgeScan
      rw [(edgeScan_flags_char m m.edges.length hwf.edgesBound e hee
        m.halfEdges.length).2]
      rw [edgeAdjFaceCount_eq m hwf.faceValid e]
      rcases hwf.pairing e hee with ⟨h0, hlist, htw⟩ | ⟨h1, h2, hlist, ht1, ht2⟩
      · rw [if_neg, hlist]
        · simp
        · rintro ⟨h, hh, hedge, htwne⟩
          have : h ∈ edgeHEs m e := (mem_edgeHEs m e h).mpr ⟨hh, hedge⟩
          rw [hlist] at this
          exact htwne (List.mem_singleton.mp this ▸ htw)
      · rw [if_pos, hlist]
        · constructor
          · intro h01
            exact absurd h01 (by omega)
          · intro hlt
            simp at hlt
        · have hm1 : h1 ∈ edgeHEs m e := by rw [hlist]; exact List.mem_cons_self _ _
          exact ⟨h1, ((mem_edgeHEs m e h1).mp hm1).1,
            ((mem_edgeHEs m e h1).mp hm1).2, ht1⟩

/-! ### List and arithmetic helpers for the builder induction -/

theorem getD_append_lt {α : Type _} (l : List α) (x d : α) (h : Nat)
    (hh : h < l.length) : (l ++ [x]).getD h d = l.getD h d := by
  simp [List.getD, List.getElem?_append_left hh]

theorem getD_append_len {α : Type _} (l : List α) (x d : α) :
    (l ++ [x]).getD l.length d = x := by
  simp [List.getD, List.getElem?_append_right (le_refl l.length)]

theorem getD_append_of_len {α : Type _} (l : List α) (x d : α) (n : Nat)
    (h : n = l.length) : (l ++ [x]).getD n d = x := by
  rw [h]
  exact getD_append_len l x d

theorem set_append_len {α : Type _} (l : List α) (x y : α) :
    (l ++ [x]).set l.length y = l ++ [y] := by
  rw [List.set_append_right _ _ (le_refl l.length)]
  simp

theorem range'_concat_one (a n : Nat) :
    List.range' a (n + 1) = List.range' a n ++ [a + n] := by
  simp [List.range'_concat]

theorem range'_succ_one (a n : Nat) :
    List.range' a (n + 1) = a :: List.range' (a + 1) n := by
  simp [List.range'_succ]

theorem getD_range' (a n i : Nat) (h : i < n) :
    (List.range' a n).getD i 0 = a + i := by
  rw [List.getD_eq_getElem?_getD, List.getElem?_eq_getElem (by simpa using h)]
  simp [List.getElem_range']

theorem mem_range'_iff (i a n : Nat) : i ∈ List.range' a n ↔ a ≤ i ∧ i < a + n := by
  rw [List.mem_range']
  constructor
  · rintro ⟨j, hj, rfl⟩; omega
  · rintro ⟨h1, h2⟩; exact ⟨i - a, by omega, by omega⟩

theorem getD_eq_get (l : List Nat) (i : Nat) (hi : i < l.length) :
    l.getD i 0 = l.get ⟨i, hi⟩ := by
  simp [List.getD, List.getElem?_eq_getElem hi]

theorem getD_mem (l : List Nat) (i : Nat) (hi : i < l.length) :
    l.getD i 0 ∈ l := by
  rw [getD_eq_get l i hi]
  exact l.get_mem i hi

theorem nodup_getD_inj (l : List Nat) (hnd : l.Nodup) {i j : Nat}
    (hi : i < l.length) (hj : j < l.length)
    (h : l.getD i 0 = l.getD j 0) : i = j := by
  rw [getD_eq_get l i hi, getD_eq_get l j hj] at h
  have := (List.Nodup.get_inj_iff hnd).mp h
  exact congrArg Fin.val this

theorem mod_pred_succ (j n : Nat) (hn : 0 < n) (hj : j < n) :
    ((j + n - 1) % n + 1) % n = j := by
  rcases j with _ | j'
  · rw [Nat.zero_add, Nat.mod_eq_of_lt (by omega : n - 1 < n)]
    rw [Nat.sub_add_cancel hn, Nat.mod_self]
  · have : j' + 1 + n - 1 = j' + n := by omega
    rw [this, Nat.add_mod_right, Nat.mod_eq_of_lt (by omega : j' < n)]
    exact Nat.mod_eq_of_lt hj

theorem succ_mod_ne_self (j n : Nat) (h3 : 3 ≤ n) (hj : j < n) :
    (j + 1) % n ≠ j := by
  rcases Nat.lt_or_ge (j + 1) n with h | h
  · rw [Nat.mod_eq_of_lt h]; omega
  · have : j + 1 = n := by omega
    rw [this, Nat.mod_self]; omega

theorem double_succ_mod_false (k j n : Nat) (h3 : 3 ≤ n) (hk : k < n)
    (h1 : (k + 1) % n = j) (h2 : (j + 1) % n = k) : False := by
  subst h1
  rw [Nat.mod_add_mod] at h2
  rcases Nat.lt_or_ge (k + 2) n with h | h
  · rw [Nat.mod_eq_of_lt h] at h2; omega
  · have hlt : k + 2 - n < n := by omega
    have : (k + 2) % n = k + 2 - n := by
      rw [Nat.mod_eq_sub_mod h, Nat.mod_eq_of_lt hlt]
    rw [this] at h2
    omega

/-! ### Step-state lemmas for the addFace loop -/

/-- Per-edge half-edge pairing: exactly one boundary half-edge, or an
interior twin pair. -/
def EdgePairing (s : Mesh) (e : Nat) : Prop :=
  (∃ h, edgeHEs s e = [h] ∧ (heAt s h).twin = INVALID) ∨
  (∃ h1 h2, edgeHEs s e = [h1, h2] ∧
    (heAt s h1).twin ≠ INVALID ∧ (heAt s h2).twin ≠ INVALID)

theorem edgeHEs_congr (s s' : Mesh) (e : Nat)
    (hlen : s'.halfEdges.length = s.halfEdges.length)
    (hedge : ∀ h < s.halfEdges.length, (heAt s' h).edge = (heAt s h).edge) :
    edgeHEs s' e = edgeHEs s e := by
  unfold edgeHEs
  rw [hlen]
  apply List.filter_congr
  intro h hh
  rw [hedge h (List.mem_range.mp hh)]

theorem edgePairing_congr (s s' : Mesh) (e : Nat)
    (hlist : edgeHEs s' e = edgeHEs s e)
    (htwin : ∀ h ∈ edgeHEs s e, (heAt s' h).twin = (heAt s h).twin) :
    EdgePairing s e → EdgePairing s' e := by
  rintro (⟨h0, hl, ht⟩ | ⟨h1, h2, hl, ht1, ht2⟩)
  · left
    refine ⟨h0, by rw [hlist, hl], ?_⟩
    rw [htwin h0 (by rw [hl]; exact List.mem_singleton.mpr rfl)]
    exact ht
  · right
    refine ⟨h1, h2, by rw [hlist, hl], ?_, ?_⟩
    · rw [htwin h1 (by rw [hl]; exact List.mem_cons_self _ _)]
      exact ht1
    · rw [htwin h2 (by rw [hl]; exact List.mem_cons.mpr (Or.inr (List.mem_singleton.mpr rfl)))]
      exact ht2

/-- The half-edge list grew by one record of edge `E`: the per-edge
index lists gain the new index exactly at `E`. -/
theorem edgeHEs_snoc (s s' : Mesh) (E : Nat)
    (hlen : s'.halfEdges.length = s.halfEdges.length + 1)
    (hold : ∀ h < s.halfEdges.length, (heAt s' h).edge = (heAt s h).edge)
    (hnew : (heAt s' s.halfEdges.length).edge = E) (e : Nat) :
    edgeHEs s' e =
      if E = e then edgeHEs s e ++ [s.halfEdges.length] else edgeHEs s e := by
  unfold edgeHEs
  rw [hlen, List.range_succ, List.filter_append]
  have h1 : (List.range s.halfEdges.length).filter
      (fun h => decide ((heAt s' h).edge = e)) =
      (List.range s.halfEdges.length).filter
      (fun h => decide ((heAt s h).edge = e)) := by
    apply List.filter_congr
    intro h hh
    rw [hold h (List.mem_range.mp hh)]
  rw [h1]
  rcases eq_or_ne E e with rfl | hne
  · rw [if_pos rfl]
    congr 1
    simp [List.filter, hnew]
  · rw [if_neg hne]
    have : ([s.halfEdges.length]).filter (fun h => decide ((heAt s' h).edge = e)) = [] := by
      simp [List.filter, hnew, hne]
    rw [this, List.append_nil]

theorem edgeHEs_nil (s : Mesh) (e : Nat)
    (h : ∀ h < s.halfEdges.length, (heAt s h).edge ≠ e) :
    edgeHEs s e = [] := by
  unfold edgeHEs
  rw [List.filter_eq_nil_iff]
  intro a ha
  simp [h a (List.mem_range.mp ha)]

theorem addFacePush_halfEdges (m : Mesh) (v1 f : Nat) :
    (addFacePush m v1 f).halfEdges =
      m.halfEdges ++ [({ «to» := v1, face := f } : HalfEdge)] := rfl

theorem addFacePush_others (m : Mesh) (v1 f : Nat) :
    (addFacePush m v1 f).vertices = m.vertices ∧
    (addFacePush m v1 f).edges = m.edges ∧
    (addFacePush m v1 f).halfEdgeMap = m.halfEdgeMap ∧
    (addFacePush m v1 f).faces = m.faces := ⟨rfl, rfl, rfl, rfl⟩

theorem addFaceOutgoing_others (m : Mesh) (v0 heIdx : Nat) (vert : Vertex) :
    (addFaceOutgoing m v0 heIdx vert).halfEdges = m.halfEdges ∧
    (addFaceOutgoing m v0 heIdx vert).edges = m.edges ∧
    (addFaceOutgoing m v0 heIdx vert).halfEdgeMap = m.halfEdgeMap ∧
    (addFaceOutgoing m v0 heIdx vert).faces = m.faces := by
  unfold addFaceOutgoing
  split <;> exact ⟨rfl, rfl, rfl, rfl⟩

theorem addFaceTwinLink_halfEdges (m : Mesh) (heIdx twinIdx : Nat) (twinHe : HalfEdge) :
    (addFaceTwinLink m heIdx twinIdx twinHe).halfEdges =
      (m.halfEdges.set heIdx
        { m.halfEdges.getD heIdx {} with twin := twinIdx, edge := twinHe.edge }).set
        twinIdx { twinHe with twin := heIdx } := rfl

theorem addFaceTwinLink_others (m : Mesh) (heIdx twinIdx : Nat) (twinHe : HalfEdge) :
    (addFaceTwinLink m heIdx twinIdx twinHe).vertices = m.vertices ∧
    (addFaceTwinLink m heIdx twinIdx twinHe).edges = m.edges ∧
    (addFaceTwinLink m heIdx twinIdx twinHe).halfEdgeMap = m.halfEdgeMap ∧
    (addFaceTwinLink m heIdx twinIdx twinHe).faces = m.faces := ⟨rfl, rfl, rfl, rfl⟩

theorem addFaceNewEdge_fields (m : Mesh) (heIdx v0 v1 : Nat) :
    (addFaceNewEdge m heIdx v0 v1).edges = m.edges ++ [({} : Edge)] ∧
    (addFaceNewEdge m heIdx v0 v1).halfEdges =
      m.halfEdges.set heIdx
        { m.halfEdges.getD heIdx {} with edge := m.edges.length } ∧
    (addFaceNewEdge m heIdx v0 v1).halfEdgeMap =
      insertMap m.halfEdgeMap (makeDirectedEdgeKey v0 v1) heIdx ∧
    (addFaceNewEdge m heIdx v0 v1).vertices = m.vertices ∧
    (addFaceNewEdge m heIdx v0 v1).faces = m.faces :=
  ⟨rfl, rfl, rfl, rfl, rfl⟩

/-- A successful loop run never shrinks the half-edge or edge arrays. -/
theorem addFaceLoop_mono (verts : List Nat) (faceIdx : Nat) :
    ∀ (is : List Nat) (s : Mesh) (fhe : List Nat) (mout : Mesh) (fhe' : List Nat),
      addFaceLoop verts faceIdx is s fhe = some (.ok mout fhe') →
      s.halfEdges.length ≤ mout.halfEdges.length ∧
      s.edges.length ≤ mout.edges.length := by
  intro is
  induction is with
  | nil =>
      intro s fhe mout fhe' h
      simp only [addFaceLoop, Option.some_inj] at h
      cases h
      exact ⟨le_refl _, le_refl _⟩
  | cons i rest ih =>
      intro s fhe mout fhe' h
      simp only [addFaceLoop] at h
      rcases hv : (addFacePush s (verts.getD ((i + 1) % verts.length) 0)
          faceIdx).vertices[verts.getD i 0]? with _ | vert
      · simp only [hv] at h
        simp at h
      · simp only [hv] at h
        rcases hl : lookupMap (addFaceOutgoing
            (addFacePush s (verts.getD ((i + 1) % verts.length) 0) faceIdx)
            (verts.getD i 0) s.halfEdges.length vert).halfEdgeMap
            (makeDirectedEdgeKey (verts.getD ((i + 1) % verts.length) 0)
              (verts.getD i 0)) with _ | twinIdx
        · simp only [hl] at h
          have := ih _ _ _ _ h
          have hlen : (addFaceNewEdge (addFaceOutgoing
              (addFacePush s (verts.getD ((i + 1) % verts.length) 0) faceIdx)
              (verts.getD i 0) s.halfEdges.length vert)
              s.halfEdges.length (verts.getD i 0)
              (verts.getD ((i + 1) % verts.length) 0)).halfEdges.length =
              s.halfEdges.length + 1 ∧
              (addFaceNewEdge (addFaceOutgoing
              (addFacePush s (verts.getD ((i + 1) % verts.length) 0) faceIdx)
              (verts.getD i 0) s.halfEdges.length vert)
              s.halfEdges.length (verts.getD i 0)
              (verts.getD ((i + 1) % verts.length) 0)).edges.length =
              s.edges.length + 1 := by
            constructor
            · rw [(addFaceNewEdge_fields _ _ _ _).2.1, List.length_set,
                (addFaceOutgoing_others _ _ _ _).1, addFacePush_halfEdges]
              simp
            · rw [(addFaceNewEdge_fields _ _ _ _).1,
                (addFaceOutgoing_others _ _ _ _).2.1, (addFacePush_others _ _ _).2.1]
              simp
          omega
        · simp only [hl] at h
          rcases hh : (addFaceOutgoing
              (addFacePush s (verts.getD ((i + 1) % verts.length) 0) faceIdx)
              (verts.getD i 0) s.halfEdges.length vert).halfEdges[twinIdx]? with _ | twinHe
          · simp only [hh] at h
            simp at h
          · simp only [hh] at h
            split at h
            · simp at h
            · have := ih _ _ _ _ h
              have hlen : (addFaceTwinLink (addFaceOutgoing
                  (addFacePush s (verts.getD ((i + 1) % verts.length) 0) faceIdx)
                  (verts.getD i 0) s.halfEdges.length vert)
                  s.halfEdges.length twinIdx twinHe).halfEdges.length =
                  s.halfEdges.length + 1 ∧
                  (addFaceTwinLink (addFaceOutgoing
                  (addFacePush s (verts.getD ((i + 1) % verts.length) 0) faceIdx)
                  (verts.getD i 0) s.halfEdges.length vert)
                  s.halfEdges.length twinIdx twinHe).edges.length = s.edges.length := by
                constructor
                · rw [addFaceTwinLink_halfEdges]
                  simp only [List.length_set]
                  rw [(addFaceOutgoing_others _ _ _ _).1, addFacePush_halfEdges]
                  simp
                · rw [(addFaceTwinLink_others _ _ _ _).2.1,
                    (addFaceOutgoing_others _ _ _ _).2.1, (addFacePush_others _ _ _).2.1]
              omega

theorem S2_halfEdges (s : Mesh) (v0 v1 faceIdx heIdx : Nat) (vert : Vertex) :
    (addFaceOutgoing (addFacePush s v1 faceIdx) v0 heIdx vert).halfEdges =
      s.halfEdges ++ [({ «to» := v1, face := faceIdx } : HalfEdge)] := by
  rw [(addFaceOutgoing_others _ _ _ _).1, addFacePush_halfEdges]

theorem S2_edges (s : Mesh) (v0 v1 faceIdx heIdx : Nat) (vert : Vertex) :
    (addFaceOutgoing (addFacePush s v1 faceIdx) v0 heIdx vert).edges = s.edges := by
  rw [(addFaceOutgoing_others _ _ _ _).2.1, (addFacePush_others _ _ _).2.1]

theorem S2_map (s : Mesh) (v0 v1 faceIdx heIdx : Nat) (vert : Vertex) :
    (addFaceOutgoing (addFacePush s v1 faceIdx) v0 heIdx vert).halfEdgeMap =
      s.halfEdgeMap := by
  rw [(addFaceOutgoing_others _ _ _ _).2.2.1, (addFacePush_others _ _ _).2.2.1]

theorem TL_halfEdges (s : Mesh) (v0 v1 faceIdx twinIdx : Nat) (vert : Vertex)
    (twinHe : HalfEdge) (ht : twinIdx < s.halfEdges.length) :
    (addFaceTwinLink (addFaceOutgoing (addFacePush s v1 faceIdx) v0
        s.halfEdges.length vert) s.halfEdges.length twinIdx twinHe).halfEdges =
      s.halfEdges.set twinIdx { twinHe with twin := s.halfEdges.length } ++
        [({ «to» := v1, face := faceIdx, twin := twinIdx,
            edge := twinHe.edge } : HalfEdge)] := by
  rw [addFaceTwinLink_halfEdges, S2_halfEdges, getD_append_len, set_append_len,
    List.set_append_left _ _ ht]

theorem TL_edges (s : Mesh) (v0 v1 faceIdx twinIdx : Nat) (vert : Vertex)
    (twinHe : HalfEdge) :
    (addFaceTwinLink (addFaceOutgoing (addFacePush s v1 faceIdx) v0
        s.halfEdges.length vert) s.halfEdges.length twinIdx twinHe).edges =
      s.edges := by
  rw [(addFaceTwinLink_others _ _ _ _).2.1, S2_edges]

theorem TL_map (s : Mesh) (v0 v1 faceIdx twinIdx : Nat) (vert : Vertex)
    (twinHe : HalfEdge) :
    (addFaceTwinLink (addFaceOutgoing (addFacePush s v1 faceIdx) v0
        s.halfEdges.length vert) s.halfEdges.length twinIdx twinHe).halfEdgeMap =
      s.halfEdgeMap := by
  rw [(addFaceTwinLink_others _ _ _ _).2.2.1, S2_map]

theorem NE_halfEdges (s : Mesh) (v0 v1 faceIdx : Nat) (vert : Vertex) :
    (addFaceNewEdge (addFaceOutgoing (addFacePush s v1 faceIdx) v0
        s.halfEdges.length vert) s.halfEdges.length v0 v1).halfEdges =
      s.halfEdges ++
        [({ «to» := v1, face := faceIdx, edge := s.edges.length } : HalfEdge)] := by
  rw [(addFaceNewEdge_fields _ _ _ _).2.1, S2_halfEdges, S2_edges, getD_append_len,
    set_append_len]

theorem NE_edges (s : Mesh) (v0 v1 faceIdx : Nat) (vert : Vertex) :
    (addFaceNewEdge (addFaceOutgoing (addFacePush s v1 faceIdx) v0
        s.halfEdges.length vert) s.halfEdges.length v0 v1).edges =
      s.edges ++ [({} : Edge)] := by
  rw [(addFaceNewEdge_fields _ _ _ _).1, S2_edges]

theorem NE_map (s : Mesh) (v0 v1 faceIdx : Nat) (vert : Vertex) :
    (addFaceNewEdge (addFaceOutgoing (addFacePush s v1 faceIdx) v0
        s.halfEdges.length vert) s.halfEdges.length v0 v1).halfEdgeMap =
      insertMap s.halfEdgeMap (makeDirectedEdgeKey v0 v1) s.halfEdges.length := by
  rw [(addFaceNewEdge_fields _ _ _ _).2.2.1, S2_map]

/-- Invariant carried through the per-vertex loop of `addFace`:
`m0` is the mesh at loop entry, `k` the number of completed
iterations. -/
structure LoopInv (m0 : Mesh) (verts : List Nat) (faceIdx k : Nat) (s : Mesh) :
    Prop where
  hlen : s.halfEdges.length = m0.halfEdges.length + k
  elen : m0.edges.length ≤ s.edges.length
  oldF : ∀ h < m0.halfEdges.length,
    (heAt s h).to = (heAt m0 h).to ∧
    (heAt s h).prev = (heAt m0 h).prev ∧
    (heAt s h).next = (heAt m0 h).next ∧
    (heAt s h).face = (heAt m0 h).face ∧
    (heAt s h).edge = (heAt m0 h).edge
  newF : ∀ j < k,
    (heAt s (m0.halfEdges.length + j)).to =
      verts.getD ((j + 1) % verts.length) 0 ∧
    (heAt s (m0.halfEdges.length + j)).face = faceIdx ∧
    (heAt s (m0.halfEdges.length + j)).prev = INVALID ∧
    (heAt s (m0.halfEdges.length + j)).next = INVALID
  edgeV : ∀ h < s.halfEdges.length, (heAt s h).edge < s.edges.length
  mapV : ∀ p ∈ s.halfEdgeMap, p.2 < s.halfEdges.length
  mapC : ∀ key v, lookupMap s.halfEdgeMap key = some v →
    lookupMap m0.halfEdgeMap key = some v ∨
    ∃ j < k, key = makeDirectedEdgeKey (verts.getD j 0)
        (verts.getD ((j + 1) % verts.length) 0) ∧
      v = m0.halfEdges.length + j
  pair : ∀ e < s.edges.length, EdgePairing s e

/-- The new-edge branch preserves the loop invariant. -/
theorem loopInv_newEdge (m0 s : Mesh) (verts : List Nat) (faceIdx k : Nat)
    (vert : Vertex) (hk : k < verts.length)
    (inv : LoopInv m0 verts faceIdx k s) :
    LoopInv m0 verts faceIdx (k + 1)
      (addFaceNewEdge (addFaceOutgoing (addFacePush s
          (verts.getD ((k + 1) % verts.length) 0) faceIdx)
        (verts.getD k 0) s.halfEdges.length vert)
        s.halfEdges.length (verts.getD k 0)
        (verts.getD ((k + 1) % verts.length) 0)) := by
  set v0 := verts.getD k 0 with hv0
  set v1 := verts.getD ((k + 1) % verts.length) 0 with hv1
  set NE := addFaceNewEdge (addFaceOutgoing (addFacePush s v1 faceIdx) v0
    s.halfEdges.length vert) s.halfEdges.length v0 v1 with hNE
  have hH : NE.halfEdges = s.halfEdges ++
      [({ «to» := v1, face := faceIdx, edge := s.edges.length } : HalfEdge)] :=
    NE_halfEdges s v0 v1 faceIdx vert
  have hE : NE.edges = s.edges ++ [({} : Edge)] := NE_edges s v0 v1 faceIdx vert
  have hM : NE.halfEdgeMap =
      insertMap s.halfEdgeMap (makeDirectedEdgeKey v0 v1) s.halfEdges.length :=
    NE_map s v0 v1 faceIdx vert
  have hAtOld : ∀ h < s.halfEdges.length, heAt NE h = heAt s h := by
    intro h hh
    rw [heAt, hH, getD_append_lt _ _ _ _ hh]
    rfl
  have hAtNew : heAt NE s.halfEdges.length =
      ({ «to» := v1, face := faceIdx, edge := s.edges.length } : HalfEdge) := by
    rw [heAt, hH, getD_append_len]
  have hLen : NE.halfEdges.length = s.halfEdges.length + 1 := by
    rw [hH]; simp
  have hELen : NE.edges.length = s.edges.length + 1 := by
    rw [hE]; simp
  have hsnoc := edgeHEs_snoc s NE s.edges.length hLen
    (fun h hh => by rw [hAtOld h hh]) (by rw [hAtNew])
  refine ⟨?_, ?_, ?_, ?_, ?_, ?_, ?_, ?_⟩
  · rw [hLen, inv.hlen]; omega
  · rw [hELen]; have := inv.elen; omega
  · intro h hh
    rw [hAtOld h (by have := inv.hlen; omega)]
    exact inv.oldF h hh
  · intro j hj
    rcases Nat.lt_succ_iff_lt_or_eq.mp hj with hj' | rfl
    · rw [hAtOld (m0.halfEdges.length + j) (by have := inv.hlen; omega)]
      exact inv.newF j hj'
    · have hidx : m0.halfEdges.length + j = s.halfEdges.length := by
        rw [inv.hlen]
      rw [hidx, hAtNew]
      exact ⟨rfl, rfl, rfl, rfl⟩
  · intro h hh
    rw [hLen] at hh
    rcases Nat.lt_succ_iff_lt_or_eq.mp hh with hh' | rfl
    · rw [hAtOld h hh', hELen]
      have := inv.edgeV h hh'
      omega
    · rw [hAtNew, hELen]
      simp
  · intro p hp
    rw [hM] at hp
    rw [hLen]
    rcases mem_insertMap _ _ _ _ hp with hold | rfl
    · have := inv.mapV p hold
      omega
    · simp
  · intro key v hkey
    rw [hM, lookupMap_insertMap] at hkey
    split at hkey
    · rename_i hkk
      cases hkey
      right
      exact ⟨k, by omega, by rw [hkk], by rw [inv.hlen]⟩
    · rcases inv.mapC key v hkey with h1 | ⟨j, hj, hkj, hvj⟩
      · exact Or.inl h1
      · exact Or.inr ⟨j, by omega, hkj, hvj⟩
  · intro e he
    rw [hELen] at he
    rcases Nat.lt_succ_iff_lt_or_eq.mp he with he' | rfl
    · have hne : s.edges.length ≠ e := by omega
      have hl := hsnoc e
      rw [if_neg hne] at hl
      refine edgePairing_congr s NE e hl ?_ (inv.pair e he')
      intro h hmem
      have := (mem_edgeHEs s e h).mp hmem
      rw [hAtOld h this.1]
    · left
      refine ⟨s.halfEdges.length, ?_, ?_⟩
      · have hl := hsnoc s.edges.length
        rw [if_pos rfl] at hl
        rw [hl, edgeHEs_nil s s.edges.length
          (fun h hh => by have := inv.edgeV h hh; omega)]
        rfl
      · rw [hAtNew]

/-- The twin-link branch preserves the loop invariant. -/
theorem loopInv_twinLink (m0 s : Mesh) (verts : List Nat) (faceIdx k : Nat)
    (vert : Vertex) (twinIdx : Nat) (twinHe : HalfEdge)
    (hk : k < verts.length) (hn3 : 3 ≤ verts.length)
    (hnodup : verts.Nodup) (hvb : ∀ v ∈ verts, v ≤ INVALID)
    (hwf0 : MeshWF m0) (hsH : s.halfEdges.length < INVALID)
    (inv : LoopInv m0 verts faceIdx k s)
    (hlook : lookupMap (addFaceOutgoing (addFacePush s
        (verts.getD ((k + 1) % verts.length) 0) faceIdx)
        (verts.getD k 0) s.halfEdges.length vert).halfEdgeMap
        (makeDirectedEdgeKey (verts.getD ((k + 1) % verts.length) 0)
          (verts.getD k 0)) = some twinIdx)
    (hsome : (addFaceOutgoing (addFacePush s
        (verts.getD ((k + 1) % verts.length) 0) faceIdx)
        (verts.getD k 0) s.halfEdges.length vert).halfEdges[twinIdx]? =
        some twinHe)
    (htw : twinHe.twin = INVALID) :
    LoopInv m0 verts faceIdx (k + 1)
      (addFaceTwinLink (addFaceOutgoing (addFacePush s
          (verts.getD ((k + 1) % verts.length) 0) faceIdx)
        (verts.getD k 0) s.halfEdges.length vert)
        s.halfEdges.length twinIdx twinHe) := by
  set n := verts.length with hn
  set v0 := verts.getD k 0 with hv0
  set v1 := verts.getD ((k + 1) % n) 0 with hv1
  rw [S2_map] at hlook
  -- the looked-up half-edge predates this addFace call
  have htm0 : twinIdx < m0.halfEdges.length := by
    rcases inv.mapC _ _ hlook with hold | ⟨j, hj, hkey, _⟩
    · exact hwf0.mapValid _ (lookupMap_mem _ _ _ hold)
    · exfalso
      have hkn : (k + 1) % n < n := Nat.mod_lt _ (by omega)
      have hjn : (j + 1) % n < n := Nat.mod_lt _ (by omega)
      have hinj := makeDirectedEdgeKey_inj
        (hvb _ (getD_mem verts _ (by omega : k < verts.length)))
        (hvb _ (getD_mem verts _ hjn)) hkey
      have h1 : (k + 1) % n = j :=
        nodup_getD_inj verts hnodup hkn (by omega) hinj.1
      have h2 : (j + 1) % n = k :=
        nodup_getD_inj verts hnodup hjn (by omega) hinj.2.symm
      exact double_succ_mod_false k j n hn3 hk h1 h2
  have htlt : twinIdx < s.halfEdges.length := by
    have := inv.hlen; omega
  -- identify the looked-up record
  have hsome' : heAt s twinIdx = twinHe := by
    rw [S2_halfEdges, List.getElem?_append_left htlt, heAt_some s twinIdx htlt]
      at hsome
    exact Option.some_inj.mp hsome
  have hestar : twinHe.edge < s.edges.length := by
    have := inv.edgeV twinIdx htlt
    rw [hsome'] at this
    exact this
  have htmem : twinIdx ∈ edgeHEs s twinHe.edge :=
    (mem_edgeHEs s _ twinIdx).mpr ⟨htlt, by rw [hsome']⟩
  -- the edge currently has exactly this one (boundary) half-edge
  have hsing : edgeHEs s twinHe.edge = [twinIdx] := by
    rcases inv.pair twinHe.edge hestar with ⟨h0, hl0, _⟩ | ⟨h1, h2, hl, ht1, ht2⟩
    · rw [hl0] at htmem ⊢
      rw [List.mem_singleton.mp htmem]
    · exfalso
      rw [hl] at htmem
      rcases List.mem_cons.mp htmem with rfl | hm2
      · exact ht1 (by rw [hsome', htw])
      · rw [List.mem_singleton.mp hm2] at hsome'
        exact ht2 (by rw [hsome', htw])
  set TL := addFaceTwinLink (addFaceOutgoing (addFacePush s v1 faceIdx) v0
    s.halfEdges.length vert) s.halfEdges.length twinIdx twinHe with hTL
  have hH : TL.halfEdges =
      s.halfEdges.set twinIdx { twinHe with twin := s.halfEdges.length } ++
        [({ «to» := v1, face := faceIdx, twin := twinIdx,
            edge := twinHe.edge } : HalfEdge)] :=
    TL_halfEdges s v0 v1 faceIdx twinIdx vert twinHe htlt
  have hE : TL.edges = s.edges := TL_edges s v0 v1 faceIdx twinIdx vert twinHe
  have hM : TL.halfEdgeMap = s.halfEdgeMap := TL_map s v0 v1 faceIdx twinIdx vert twinHe
  have hLen : TL.halfEdges.length = s.halfEdges.length + 1 := by
    rw [hH]
    simp [List.length_set]
  have hAtOld : ∀ h < s.halfEdges.length, h ≠ twinIdx → heAt TL h = heAt s h := by
    intro h hh hne
    rw [heAt, hH, getD_append_lt _ _ _ _ (by simpa [List.length_set] using hh),
      getD_set_ne (fun hc => hne hc.symm)]
    rfl
  have hAtTwin : heAt TL twinIdx = { twinHe with twin := s.halfEdges.length } := by
    rw [heAt, hH, getD_append_lt _ _ _ _ (by simpa [List.length_set] using htlt),
      getD_set_self _ _ _ _ htlt]
  have hAtNew : heAt TL s.halfEdges.length =
      ({ «to» := v1, face := faceIdx, twin := twinIdx,
          edge := twinHe.edge } : HalfEdge) := by
    rw [heAt, hH]
    exact getD_append_of_len _ _ _ _ (by simp [List.length_set])
  have holdedge : ∀ h < s.halfEdges.length, (heAt TL h).edge = (heAt s h).edge := by
    intro h hh
    rcases eq_or_ne h twinIdx with rfl | hne
    · rw [hAtTwin, hsome']
    · rw [hAtOld h hh hne]
  have hsnoc := edgeHEs_snoc s TL twinHe.edge hLen holdedge (by rw [hAtNew])
  refine ⟨?_, ?_, ?_, ?_, ?_, ?_, ?_, ?_⟩
  · rw [hLen, inv.hlen]
    omega
  · rw [hE]
    exact inv.elen
  · intro i hi
    rcases eq_or_ne i twinIdx with heq | hne
    · subst heq
      rw [hAtTwin]
      have hof := inv.oldF i hi
      rw [hsome'] at hof
      exact hof
    · rw [hAtOld i (by have := inv.hlen; omega) hne]
      exact inv.oldF i hi
  · intro j hj
    rcases Nat.lt_succ_iff_lt_or_eq.mp hj with hj' | rfl
    · have hidx : m0.halfEdges.length + j < s.halfEdges.length := by
        have := inv.hlen; omega
      have hneq : m0.halfEdges.length + j ≠ twinIdx := by omega
      rw [hAtOld _ hidx hneq]
      exact inv.newF j hj'
    · have hidx : m0.halfEdges.length + j = s.halfEdges.length := by
        rw [inv.hlen]
      rw [hidx, hAtNew]
      exact ⟨rfl, rfl, rfl, rfl⟩
  · intro h hh
    rw [hLen] at hh
    rw [hE]
    rcases Nat.lt_succ_iff_lt_or_eq.mp hh with hh' | rfl
    · rw [holdedge h hh']
      exact inv.edgeV h hh'
    · rw [hAtNew]
      exact hestar
  · intro p hp
    rw [hM] at hp
    rw [hLen]
    have := inv.mapV p hp
    omega
  · intro key v hkey
    rw [hM] at hkey
    rcases inv.mapC key v hkey with h1 | ⟨j, hj, hkj, hvj⟩
    · exact Or.inl h1
    · exact Or.inr ⟨j, by omega, hkj, hvj⟩
  · intro e he
    rw [hE] at he
    rcases eq_or_ne twinHe.edge e with rfl | hne
    · right
      refine ⟨twinIdx, s.halfEdges.length, ?_, ?_, ?_⟩
      · rw [hsnoc, if_pos rfl, hsing]
        rfl
      · rw [hAtTwin]
        simp only []
        omega
      · rw [hAtNew]
        simp only []
        have := inv.hlen
        omega
    · have hl := hsnoc e
      rw [if_neg hne] at hl
      refine edgePairing_congr s TL e hl ?_ (inv.pair e he)
      intro h hmem
      have hm := (mem_edgeHEs s e h).mp hmem
      have hnt : h ≠ twinIdx := by
        intro hc
        rw [hc, hsome'] at hm
        exact hne hm.2
      rw [hAtOld h hm.1 hnt]

/-- Running the remaining iterations of the `addFace` loop from a state
satisfying the invariant yields a final state satisfying the invariant at
`verts.length`, and records exactly the indices of the appended half-edges. -/
theorem addFaceLoop_inv (m0 : Mesh) (verts : List Nat) (faceIdx : Nat)
    (hwf0 : MeshWF m0) (hnodup : verts.Nodup) (hn3 : 3 ≤ verts.length)
    (hvb : ∀ v ∈ verts, v ≤ INVALID)
    (hHb : m0.halfEdges.length + verts.length ≤ INVALID) :
    ∀ (j k : Nat) (s mout : Mesh) (fhe fhe' : List Nat),
      k + j = verts.length →
      LoopInv m0 verts faceIdx k s →
      addFaceLoop verts faceIdx (List.range' k j) s fhe =
        some (AddFaceLoopRes.ok mout fhe') →
      LoopInv m0 verts faceIdx verts.length mout ∧
        fhe' = fhe ++ List.range' (m0.halfEdges.length + k) j := by
  intro j
  induction j with
  | zero =>
      intro k s mout fhe fhe' hkj inv hrun
      simp only [List.range', addFaceLoop, Option.some_inj] at hrun
      cases hrun
      have hkn : k = verts.length := by omega
      rw [hkn] at inv
      exact ⟨inv, by simp⟩
  | succ j ih =>
      intro k s mout fhe fhe' hkj inv hrun
      have hk : k < verts.length := by omega
      have hsH : s.halfEdges.length < INVALID := by
        rw [inv.hlen]
        omega
      rw [range'_succ_one] at hrun
      simp only [addFaceLoop] at hrun
      rcases hv : (addFacePush s (verts.getD ((k + 1) % verts.length) 0)
          faceIdx).vertices[verts.getD k 0]? with _ | vert
      · simp only [hv] at hrun
        simp at hrun
      · simp only [hv] at hrun
        rcases hl : lookupMap (addFaceOutgoing
            (addFacePush s (verts.getD ((k + 1) % verts.length) 0) faceIdx)
            (verts.getD k 0) s.halfEdges.length vert).halfEdgeMap
            (makeDirectedEdgeKey (verts.getD ((k + 1) % verts.length) 0)
              (verts.getD k 0)) with _ | twinIdx
        · simp only [hl] at hrun
          have inv' := loopInv_newEdge m0 s verts faceIdx k vert hk inv
          have := ih (k + 1) _ mout (fhe ++ [s.halfEdges.length]) fhe'
            (by omega) inv' hrun
          refine ⟨this.1, ?_⟩
          rw [this.2, inv.hlen, List.append_assoc]
          rw [show m0.halfEdges.length + (k + 1) =
            m0.halfEdges.length + k + 1 from rfl, range'_succ_one]
          rfl
        · simp only [hl] at hrun
          rcases hh : (addFaceOutgoing
              (addFacePush s (verts.getD ((k + 1) % verts.length) 0) faceIdx)
              (verts.getD k 0) s.halfEdges.length vert).halfEdges[twinIdx]?
              with _ | twinHe
          · simp only [hh] at hrun
            simp at hrun
          · simp only [hh] at hrun
            split at hrun
            · simp at hrun
            · have htw : twinHe.twin = INVALID := by
                rename_i hcond
                simpa using hcond
              have inv' := loopInv_twinLink m0 s verts faceIdx k vert twinIdx
                twinHe hk hn3 hnodup hvb hwf0 hsH inv hl hh htw
              have := ih (k + 1) _ mout (fhe ++ [s.halfEdges.length]) fhe'
                (by omega) inv' hrun
              refine ⟨this.1, ?_⟩
              rw [this.2, inv.hlen, List.append_assoc]
              rw [show m0.halfEdges.length + (k + 1) =
                m0.halfEdges.length + k + 1 from rfl, range'_succ_one]
              rfl

/-- A successful loop run appends at most one edge per iteration. -/
theorem addFaceLoop_edges_ub (verts : List Nat) (faceIdx : Nat) :
    ∀ (is : List Nat) (s : Mesh) (fhe : List Nat) (mout : Mesh) (fhe' : List Nat),
      addFaceLoop verts faceIdx is s fhe = some (.ok mout fhe') →
      mout.edges.length ≤ s.edges.length + is.length := by
  intro is
  induction is with
  | nil =>
      intro s fhe mout fhe' h
      simp only [addFaceLoop, Option.some_inj] at h
      cases h
      simp
  | cons i rest ih =>
      intro s fhe mout fhe' h
      simp only [addFaceLoop] at h
      rcases hv : (addFacePush s (verts.getD ((i + 1) % verts.length) 0)
          faceIdx).vertices[verts.getD i 0]? with _ | vert
      · simp only [hv] at h
        simp at h
      · simp only [hv] at h
        rcases hl : lookupMap (addFaceOutgoing
            (addFacePush s (verts.getD ((i + 1) % verts.length) 0) faceIdx)
            (verts.getD i 0) s.halfEdges.length vert).halfEdgeMap
            (makeDirectedEdgeKey (verts.getD ((i + 1) % verts.length) 0)
              (verts.getD i 0)) with _ | twinIdx
        · simp only [hl] at h
          have := ih _ _ _ _ h
          have hne : (addFaceNewEdge (addFaceOutgoing
              (addFacePush s (verts.getD ((i + 1) % verts.length) 0) faceIdx)
              (verts.getD i 0) s.halfEdges.length vert)
              s.halfEdges.length (verts.getD i 0)
              (verts.getD ((i + 1) % verts.length) 0)).edges.length =
              s.edges.length + 1 := by
            rw [(addFaceNewEdge_fields _ _ _ _).1,
              (addFaceOutgoing_others _ _ _ _).2.1, (addFacePush_others _ _ _).2.1]
            simp
          rw [hne] at this
          simp only [List.length_cons]
          omega
        · simp only [hl] at h
          rcases hh : (addFaceOutgoing
              (addFacePush s (verts.getD ((i + 1) % verts.length) 0) faceIdx)
              (verts.getD i 0) s.halfEdges.length vert).halfEdges[twinIdx]?
              with _ | twinHe
          · simp only [hh] at h
            simp at h
          · simp only [hh] at h
            split at h
            · simp at h
            · have := ih _ _ _ _ h
              have hne : (addFaceTwinLink (addFaceOutgoing
                  (addFacePush s (verts.getD ((i + 1) % verts.length) 0) faceIdx)
                  (verts.getD i 0) s.halfEdges.length vert)
                  s.halfEdges.length twinIdx twinHe).edges =
                  s.edges := TL_edges s _ _ faceIdx twinIdx vert twinHe
              rw [hne] at this
              simp only [List.length_cons]
              omega

/-- The next/prev linking loop leaves every component other than the
half-edge records (and their count) untouched. -/
theorem linkLoop_others :
    ∀ (fhe is : List Nat) (s : Mesh),
      (linkLoop fhe is s).edges = s.edges ∧
      (linkLoop fhe is s).halfEdgeMap = s.halfEdgeMap ∧
      (linkLoop fhe is s).faces = s.faces ∧
      (linkLoop fhe is s).vertices = s.vertices ∧
      (linkLoop fhe is s).halfEdges.length = s.halfEdges.length := by
  intro fhe is
  induction is with
  | nil => intro s; exact ⟨rfl, rfl, rfl, rfl, rfl⟩
  | cons i rest ih =>
      intro s
      simp only [linkLoop]
      refine ⟨(ih _).1, (ih _).2.1, (ih _).2.2.1, (ih _).2.2.2.1, ?_⟩
      rw [(ih _).2.2.2.2]
      simp [List.length_set]

/-- A half-edge record with `next` and `prev` replaced. -/
def relink (he : HalfEdge) (nx pv : Nat) : HalfEdge :=
  { he with next := nx, prev := pv }

/-- One iteration of the next/prev linking loop. -/
def linkStep (fhe : List Nat) (i : Nat) (s : Mesh) : Mesh :=
  let curr := fhe.getD i 0
  let nxt := fhe.getD ((i + 1) % fhe.length) 0
  let prv := fhe.getD ((i + fhe.length - 1) % fhe.length) 0
  let he' := relink (s.halfEdges.getD curr {}) nxt prv
  { s with halfEdges := s.halfEdges.set curr he' }

theorem linkLoop_cons (fhe : List Nat) (i : Nat) (rest : List Nat) (s : Mesh) :
    linkLoop fhe (i :: rest) s = linkLoop fhe rest (linkStep fhe i s) := rfl

/-- Effect of the linking loop when the recorded indices are the suffix
`range' a n` of the half-edge array: each new half-edge `a + i` gets
`next = a + (i+1) mod n` and `prev = a + (i+n-1) mod n`, everything else
is untouched. -/
theorem linkLoop_char (a n : Nat) :
    ∀ (j k : Nat) (s : Mesh), k + j = n → s.halfEdges.length = a + n →
      (∀ h, h < a + k →
        heAt (linkLoop (List.range' a n) (List.range' k j) s) h = heAt s h) ∧
      (∀ i, k ≤ i → i < n →
        heAt (linkLoop (List.range' a n) (List.range' k j) s) (a + i) =
          relink (heAt s (a + i)) (a + ((i + 1) % n)) (a + ((i + n - 1) % n))) := by
  intro j
  induction j with
  | zero =>
      intro k s hkj hlen
      exact ⟨fun h _ => rfl, fun i hki hin => absurd hin (by omega)⟩
  | succ j ih =>
      intro k s hkj hlen
      have hkn : k < n := by omega
      rw [range'_succ_one, linkLoop_cons]
      have hS1len : (linkStep (List.range' a n) k s).halfEdges.length = a + n := by
        simp [linkStep, List.length_set, hlen]
      have hAt1 : ∀ h, h ≠ a + k →
          heAt (linkStep (List.range' a n) k s) h = heAt s h := by
        intro h hne
        simp only [linkStep, heAt]
        rw [getD_range' a n k hkn]
        exact getD_set_ne (fun hc => hne hc.symm) _ _ _
      have hAtK : heAt (linkStep (List.range' a n) k s) (a + k) =
          relink (heAt s (a + k)) (a + ((k + 1) % n)) (a + ((k + n - 1) % n)) := by
        simp only [linkStep, heAt, List.length_range']
        rw [getD_range' a n k hkn,
          getD_range' a n ((k + 1) % n) (Nat.mod_lt _ (by omega)),
          getD_range' a n ((k + n - 1) % n) (Nat.mod_lt _ (by omega))]
        exact getD_set_self _ _ _ _ (by rw [hlen]; omega)
      obtain ⟨ihOld, ihNew⟩ := ih (k + 1) (linkStep (List.range' a n) k s)
        (by omega) hS1len
      constructor
      · intro h hh
        rw [ihOld h (by omega), hAt1 h (by omega)]
      · intro i hki hin
        rcases eq_or_ne i k with rfl | hne
        · rw [ihOld (a + i) (by omega), hAtK]
        · rw [ihNew i (by omega) hin, hAt1 (a + i) (by omega)]

/-- The loop invariant holds trivially at loop entry on a well-formed
mesh. -/
theorem loopInv_init (m : Mesh) (hwf : MeshWF m) (verts : List Nat)
    (faceIdx : Nat) : LoopInv m verts faceIdx 0 m := by
  refine ⟨rfl, le_refl _, ?_, ?_, hwf.edgeValid, hwf.mapValid, ?_, ?_⟩
  · intro h hh
    exact ⟨rfl, rfl, rfl, rfl, rfl⟩
  · intro j hj
    exact absurd hj (by omega)
  · intro key v hkey
    exact Or.inl hkey
  · intro e he
    exact hwf.pairing e he

/-- Well-formedness ignores the face array and face attributes. -/
theorem meshWF_faces_irrel (s : Mesh) (fs : List Face) (fas : List Unit)
    (h : MeshWF s) :
    MeshWF { s with faces := fs, faceAttributes := fas } := by
  obtain ⟨h1, h2, h3, h4, h5, h6, h7, h8⟩ := h
  exact ⟨h1, h2, h3, h4, h5, h6, h7, h8⟩

/-- After a full successful loop run followed by the next/prev linking
pass, the mesh is well-formed again. -/
theorem meshWF_after_link (m mloop : Mesh) (verts : List Nat) (faceIdx : Nat)
    (hwf : MeshWF m) (hnodup : verts.Nodup) (hn3 : 3 ≤ verts.length)
    (hHb : m.halfEdges.length + verts.length ≤ INVALID)
    (hEb : mloop.edges.length ≤ INVALID)
    (hFne : faceIdx ≠ INVALID)
    (invF : LoopInv m verts faceIdx verts.length mloop) :
    MeshWF (linkLoop (List.range' m.halfEdges.length verts.length)
      (List.range' 0 verts.length) mloop) := by
  set a := m.halfEdges.length with ha
  set n := verts.length with hnn
  set L := linkLoop (List.range' a n) (List.range' 0 n) mloop with hL
  have hml := invF.hlen
  obtain ⟨lcOld, lcNew⟩ := linkLoop_char a n n 0 mloop (by omega) hml
  rw [← hL] at lcOld lcNew
  have hoth := linkLoop_others (List.range' a n) (List.range' 0 n) mloop
  rw [← hL] at hoth
  have hLlen : L.halfEdges.length = a + n := by
    rw [hoth.2.2.2.2, hml]
  have hpres : ∀ h < a + n,
      (heAt L h).to = (heAt mloop h).to ∧
      (heAt L h).twin = (heAt mloop h).twin ∧
      (heAt L h).face = (heAt mloop h).face ∧
      (heAt L h).edge = (heAt mloop h).edge := by
    intro h hh
    rcases Nat.lt_or_ge h a with hlt | hge
    · rw [lcOld h (by omega)]
      exact ⟨rfl, rfl, rfl, rfl⟩
    · obtain ⟨j, rfl⟩ : ∃ j, h = a + j := ⟨h - a, by omega⟩
      rw [lcNew j (by omega) (by omega)]
      exact ⟨rfl, rfl, rfl, rfl⟩
  refine ⟨?_, ?_, ?_, ?_, ?_, ?_, ?_, ?_⟩
  · rw [hLlen]
    exact hHb
  · rw [hoth.1]
    exact hEb
  · intro h hh
    rw [hLlen] at hh
    rw [(hpres h hh).2.2.2, hoth.1]
    exact invF.edgeV h (by omega)
  · intro h hh
    rw [hLlen] at hh
    rw [(hpres h hh).2.2.1]
    rcases Nat.lt_or_ge h a with hlt | hge
    · rw [(invF.oldF h hlt).2.2.2.1]
      exact hwf.faceValid h hlt
    · obtain ⟨j, rfl⟩ : ∃ j, h = a + j := ⟨h - a, by omega⟩
      rw [(invF.newF j (by omega)).2.1]
      exact hFne
  · intro h hh
    rw [hLlen] at hh ⊢
    rcases Nat.lt_or_ge h a with hlt | hge
    · rw [lcOld h (by omega), (invF.oldF h hlt).2.1]
      have := hwf.prevValid h hlt
      omega
    · obtain ⟨j, rfl⟩ : ∃ j, h = a + j := ⟨h - a, by omega⟩
      rw [lcNew j (by omega) (by omega)]
      have : (relink (heAt mloop (a + j)) (a + ((j + 1) % n))
          (a + ((j + n - 1) % n))).prev = a + ((j + n - 1) % n) := rfl
      rw [this]
      have := Nat.mod_lt (j + n - 1) (show 0 < n by omega)
      omega
  · intro h hh
    rw [hLlen] at hh
    rcases Nat.lt_or_ge h a with hlt | hge
    · have hprev : (heAt L h).prev = (heAt m h).prev := by
        rw [lcOld h (by omega), (invF.oldF h hlt).2.1]
      have hpv := hwf.prevValid h hlt
      rw [hprev, lcOld h (by omega), lcOld (heAt m h).prev (by omega),
        (invF.oldF h hlt).1, (invF.oldF (heAt m h).prev hpv).1]
      exact hwf.fromNeTo h hlt
    · obtain ⟨j, rfl⟩ : ∃ j, h = a + j := ⟨h - a, by omega⟩
      have hj : j < n := by omega
      have hprev : (heAt L (a + j)).prev = a + ((j + n - 1) % n) := by
        rw [lcNew j (by omega) hj]
        rfl
      have hto : (heAt L (a + j)).to = verts.getD ((j + 1) % n) 0 := by
        rw [(hpres (a + j) (by omega)).1, (invF.newF j hj).1]
      have hj' : (j + n - 1) % n < n := Nat.mod_lt _ (by omega)
      have hto' : (heAt L (a + ((j + n - 1) % n))).to = verts.getD j 0 := by
        rw [(hpres (a + ((j + n - 1) % n)) (by omega)).1,
          (invF.newF ((j + n - 1) % n) hj').1, mod_pred_succ j n (by omega) hj]
      rw [hprev, hto, hto']
      intro hcon
      have hk1 : (j + 1) % n < n := Nat.mod_lt _ (by omega)
      have := nodup_getD_inj verts hnodup (by omega : j < verts.length)
        (by omega : (j + 1) % n < verts.length) hcon
      exact succ_mod_ne_self j n hn3 hj this.symm
  · intro p hp
    rw [hoth.2.1] at hp
    rw [hLlen]
    have := invF.mapV p hp
    omega
  · intro e he
    rw [hoth.1] at he
    have hlist : edgeHEs L e = edgeHEs mloop e := by
      refine edgeHEs_congr mloop L e (by rw [hLlen, hml]) ?_
      intro h hh
      exact (hpres h (by omega)).2.2.2
    refine edgePairing_congr mloop L e hlist ?_ (invF.pair e he)
    intro h hmem
    have hm := (mem_edgeHEs mloop e h).mp hmem
    exact (hpres h (by have := hm.1; omega)).2.1

/-- The empty mesh is well-formed. -/
theorem meshWF_empty : MeshWF emptyMesh :=
  ⟨by decide, by decide,
    fun h hh => by simp [emptyMesh] at hh,
    fun h hh => by simp [emptyMesh] at hh,
    fun h hh => by simp [emptyMesh] at hh,
    fun h hh => by simp [emptyMesh] at hh,
    fun p hp => by simp [emptyMesh] at hp,
    fun e he => by simp [emptyMesh] at he⟩

/-- `addVertex` touches only the vertex arrays, so it preserves
well-formedness. -/
theorem meshWF_addVertex (m : Mesh) (hwf : MeshWF m) :
    MeshWF (addVertexM m) := by
  obtain ⟨h1, h2, h3, h4, h5, h6, h7, h8⟩ := hwf
  exact ⟨h1, h2, h3, h4, h5, h6, h7, h8⟩

/-- A successful `addFace` call on a well-formed mesh (with in-range
vertex ids and no uint32 overflow) leaves the mesh well-formed. -/
theorem addFace_preserves_WF (m m' : Mesh) (verts : List Nat) (idx : Nat)
    (hwf : MeshWF m)
    (hvb : ∀ v ∈ verts, v ≤ INVALID)
    (hHb : m.halfEdges.length + verts.length ≤ INVALID)
    (hEb : m.edges.length + verts.length ≤ INVALID)
    (hFb : m.faces.length < INVALID)
    (haf : addFace m verts = some (m', idx, none)) :
    MeshWF m' := by
  simp only [addFace] at haf
  split at haf
  · simp at haf
  · rename_i hlt
    split at haf
    · simp at haf
    · rename_i hdup
      have hn3 : 3 ≤ verts.length := by omega
      have hnodup : verts.Nodup :=
        (hasDuplicate_eq_false_iff verts).mp (by simpa using hdup)
      rcases hrun : addFaceLoop verts m.faces.length
          (List.range verts.length) m [] with _ | res
      · simp only [hrun] at haf
        simp at haf
      · rcases res with ⟨mloop, fhe⟩ | mNM
        · simp only [hrun] at haf
          simp only [Option.some_inj, Prod.mk.injEq, and_true] at haf
          obtain ⟨hfin, hidx⟩ := haf
          subst hfin
          rw [List.range_eq_range'] at hrun
          obtain ⟨invF, hfhe⟩ := addFaceLoop_inv m verts m.faces.length hwf
            hnodup hn3 hvb hHb verts.length 0 m mloop [] fhe (by omega)
            (loopInv_init m hwf verts m.faces.length) hrun
          have hub : mloop.edges.length ≤ m.edges.length + verts.length := by
            have := addFaceLoop_edges_ub verts m.faces.length
              (List.range' 0 verts.length) m [] mloop fhe hrun
            simpa using this
          simp only [List.nil_append, Nat.add_zero] at hfhe
          subst hfhe
          simp only [List.length_range', List.range_eq_range']
          exact meshWF_faces_irrel _ _ _
            (meshWF_after_link m mloop verts m.faces.length hwf hnodup hn3
              hHb (by omega) (by omega) invF)
        · simp only [hrun] at haf
          simp at haf

/-- Meshes reachable through the builder API: the empty mesh,
`addVertex`, and successful `addFace` calls whose `uint32` casts do not
overflow and whose vertex ids are representable. -/
inductive Built : Mesh → Prop where
  | empty : Built emptyMesh
  | vertex (m : Mesh) : Built m → Built (addVertexM m)
  | face (m m' : Mesh) (verts : List Nat) (idx : Nat) :
      Built m →
      (∀ v ∈ verts, v ≤ INVALID) →
      m.halfEdges.length + verts.length ≤ INVALID →
      m.edges.length + verts.length ≤ INVALID →
      m.faces.length < INVALID →
      addFace m verts = some (m', idx, none) →
      Built m'

/-- Every mesh built through successful builder calls is well-formed. -/
theorem built_WF (m : Mesh) (hb : Built m) : MeshWF m := by
  induction hb with
  | empty => exact meshWF_empty
  | vertex m _ ih => exact meshWF_addVertex m ih
  | face m m' verts idx _ hvb hHb hEb hFb haf ih =>
      exact addFace_preserves_WF m m' verts idx ih hvb hHb hEb hFb haf

/-- C5: for every mesh reached through the builder API by `addVertex`
and *successful* `addFace` calls (no overflow of the `uint32` casts),
every edge entry of a freshly built cache stores its vertices in
canonical order `u < w`, and its boundary flag is 1 exactly when the
edge has fewer than two adjacent faces.  The claim's stronger "including
a mix of successful and failed addFace calls" clause is false: see the
counterexample theorem on `twinMeshAfterFail`. -/
theorem C5_cache_edge_canonical_boundary (c : TopologyCache) (m : Mesh)
    (hb : Built m) :
    ∀ e < (c.build m).edgeVertices.length,
      ((c.build m).edgeVertices.getD e (INVALID, INVALID)).1 <
        ((c.build m).edgeVertices.getD e (INVALID, INVALID)).2 ∧
      ((c.build m).edgeBoundaryFlags.getD e 0 = 1 ↔
        edgeAdjFaceCount m e < 2) :=
  fun e he => meshWF_cache_edges c m (built_WF m hb) e he

/-- Witness: the single-triangle mesh is built by three `addVertex`
calls and one successful `addFace`; its cache edge 0 is `(0,1)` with
boundary flag 1 and one adjacent face. -/
theorem C5_cache_edge_canonical_boundary_witness :
    ((TopologyCache.build ({} : TopologyCache) triMesh).edgeVertices.getD 0
        (INVALID, INVALID)).1 <
      ((TopologyCache.build ({} : TopologyCache) triMesh).edgeVertices.getD 0
        (INVALID, INVALID)).2 ∧
    ((TopologyCache.build ({} : TopologyCache) triMesh).edgeBoundaryFlags.getD 0
        0 = 1 ↔ edgeAdjFaceCount triMesh 0 < 2) := by
  have hb3 : Built (meshN 3) := by
    show Built (addVertexM (addVertexM (addVertexM emptyMesh)))
    exact Built.vertex _ (Built.vertex _ (Built.vertex _ Built.empty))
  have hb : Built triMesh :=
    Built.face (meshN 3) triMesh [0, 1, 2] 0 hb3 (by decide) (by decide)
      (by decide) (by decide) (by decide)
  exact C5_cache_edge_canonical_boundary {} triMesh hb 0 (by decide)

/-- C5 counterexample (the "including failed addFace calls" clause):
`twinMeshAfterFail` is exactly the mesh left by a failed
`NON_MANIFOLD_EDGE` call on `twinMesh`; its orphaned edge 5 is touched by
no half-edge, so the cache build leaves its vertex entry at the fill
value `(INVALID, INVALID)`, which is not in canonical order `u < w`. -/
theorem C5_failed_addFace_breaks_canonical_order :
    addFace twinMesh [4, 1, 0] =
      some (twinMeshAfterFail, INVALID, some "NON_MANIFOLD_EDGE") ∧
    (TopologyCache.build ({} : TopologyCache) twinMeshAfterFail
      ).edgeVertices.length = 6 ∧
    ¬ (((TopologyCache.build ({} : TopologyCache) twinMeshAfterFail
        ).edgeVertices.getD 5 (INVALID, INVALID)).1 <
      ((TopologyCache.build ({} : TopologyCache) twinMeshAfterFail
        ).edgeVertices.getD 5 (INVALID, INVALID)).2) := by
  decide
